import Mathlib

/-!
# MCP command-line client: the tool-calling conversation loop

A shallow embedding of `mcp-client-playwright-ts/build-util/index.js`.

The program talks to three collaborators: the LLM API (`anthropic.messages.create`),
the tool provider (`mcp.listTools`, `mcp.callTool`, `mcp.close`) and the console
(`rl.question`, `console.log`).  Each collaborator is a script held in the `World`:
the list of outcomes its successive calls settle to.  Every call the program makes is
appended to `World.log`, so that the number, order and arguments of the calls can be
stated.  An `await` on a script that has run out never settles (`Outcome.pending`).
-/

namespace McpClient

/-! ## JSON values and `JSON.stringify` -/

mutual
/-- A JSON value.  A number is carried by the text `Number::toString` gives it. -/
inductive Json where
  | null
  | bool (b : Bool)
  | num (text : String)
  | str (s : String)
  | arr (items : JsonItems)
  | obj (members : JsonMembers)
/-- The elements of a JSON array, in order. -/
inductive JsonItems where
  | nil
  | cons (head : Json) (tail : JsonItems)
/-- The members of a JSON object, in property order. -/
inductive JsonMembers where
  | nil
  | cons (key : String) (value : Json) (tail : JsonMembers)
end

/-- One lower-case hexadecimal digit. -/
def hexDigit (n : Nat) : Char :=
  if n < 10 then Char.ofNat (48 + n) else Char.ofNat (87 + n)

/-- QuoteJSONString on one code point: the two-character escapes, the six-character
escape of the other control characters, and every other character as it is. -/
def quoteChar (c : Char) : List Char :=
  let n := c.toNat
  if n = 8 then [Char.ofNat 92, 'b']
  else if n = 9 then [Char.ofNat 92, 't']
  else if n = 10 then [Char.ofNat 92, 'n']
  else if n = 12 then [Char.ofNat 92, 'f']
  else if n = 13 then [Char.ofNat 92, 'r']
  else if n = 34 then [Char.ofNat 92, Char.ofNat 34]
  else if n = 92 then [Char.ofNat 92, Char.ofNat 92]
  else if n < 32 then [Char.ofNat 92, 'u', '0', '0', hexDigit (n / 16), hexDigit (n % 16)]
  else [c]

/-- QuoteJSONString: the string between double quotes, escaped. -/
def quoteJSONString (s : String) : String :=
  String.mk ([Char.ofNat 34] ++ s.data.flatMap quoteChar ++ [Char.ofNat 34])

mutual
/-- The text `JSON.stringify(v)` gives, without indentation. -/
def jsonStringify : Json → String
  | .null => "null"
  | .bool true => "true"
  | .bool false => "false"
  | .num text => text
  | .str s => quoteJSONString s
  | .arr items => "[" ++ stringifyItems items ++ "]"
  | .obj members => "\x7b" ++ stringifyMembers members ++ "\x7d"
/-- The elements of an array, separated by commas. -/
def stringifyItems : JsonItems → String
  | .nil => ""
  | .cons v .nil => jsonStringify v
  | .cons v rest => jsonStringify v ++ "," ++ stringifyItems rest
/-- The members of an object, each as a quoted key, a colon and the value. -/
def stringifyMembers : JsonMembers → String
  | .nil => ""
  | .cons k v .nil => quoteJSONString k ++ ":" ++ jsonStringify v
  | .cons k v rest => quoteJSONString k ++ ":" ++ jsonStringify v ++ "," ++ stringifyMembers rest
end

/-! ## Data model -/

/-- A JavaScript error value, thrown or carried by a rejected promise. -/
structure JsError where
  message : String

/-- What an awaited call settles to: a value, a raised error, or nothing at all. -/
inductive Outcome (α : Type) where
  | resolved (value : α)
  | rejected (reason : JsError)
  | pending

/-- A tool as `mcp.listTools()` describes it. -/
structure ProviderTool where
  name : String
  description : Option String
  inputSchema : Json

/-- A tool in the shape the LLM API expects (lines 37-41). -/
structure Tool where
  name : String
  description : Option String
  input_schema : Json

/-- One content block of a model response, by its `type` tag: `"text"`, `"tool_use"`,
or any other tag. -/
inductive ContentBlock where
  | text (text : String)
  | tool_use (id : String) (name : String) (input : Json)
  | other (type : String)

/-- The object pushed on `toolResults` (lines 95-99); its `type` is `"tool_result"`. -/
structure ToolResultBlock where
  tool_use_id : String
  content : Json

inductive Role where
  | user
  | assistant

/-- The `content` of a message: the query string, the content blocks of a response, or
the tool results of a round. -/
inductive MessageContent where
  | query (text : String)
  | blocks (content : List ContentBlock)
  | toolResults (results : List ToolResultBlock)

structure Message where
  role : Role
  content : MessageContent

/-- The argument of `anthropic.messages.create` (lines 67-72). -/
structure CreateParams where
  model : String
  max_tokens : Nat
  messages : List Message
  tools : List Tool

/-- One argument of a `console.log` call. -/
inductive LogArg where
  | str (s : String)
  | names (names : List String)
  | error (e : JsError)

/-- A call the program makes on one of its collaborators. -/
inductive Event where
  | connect (command : String) (args : List String)
  | listTools
  | messagesCreate (params : CreateParams)
  | callTool (name : String) (arguments : Json)
  | createInterface
  | question (prompt : String)
  | consoleLog (args : List LogArg)
  | rlClose
  | mcpClose
  | exit (code : Int)

/-- The collaborators' scripts and the log of the calls made so far. -/
structure World where
  /-- what `mcp.listTools()` settles to -/
  listing : Outcome (List ProviderTool)
  /-- what the successive `anthropic.messages.create` calls settle to: the `content` of
  the response, or the error raised -/
  responses : List (Except JsError (List ContentBlock))
  /-- what the successive `mcp.callTool` calls settle to: the `content` of the result,
  or the error raised -/
  toolOutcomes : List (Except JsError Json)
  /-- the lines the successive `rl.question` calls read -/
  stdin : List String
  /-- what `mcp.close()` settles to -/
  closing : Outcome Unit
  log : List Event

/-- Appends one call to the log. -/
def World.emit (w : World) (e : Event) : World :=
  { w with log := w.log ++ [e] }

/-- The fields of the `MCPClient` instance that the methods assign. -/
structure MCPClient where
  transport : Option (String × List String)
  tools : List Tool

/-! ## `processQuery` (lines 50-115) -/

/-- The template literal of line 89. -/
def callingLine (toolName : String) (toolArgs : Json) : String :=
  "[Calling tool " ++ toolName ++ " with args " ++ jsonStringify toolArgs ++ "]"

/-- The variables the `for` loop of lines 81-101 assigns. -/
structure Scan where
  finalText : List String
  hasToolCalls : Bool
  toolResults : List ToolResultBlock
  world : World

/-- The `for (const content of response.content)` loop, lines 81-101.  An error raised
by `mcp.callTool` leaves the loop at once. -/
def forContent : List ContentBlock → Scan → Outcome Unit × Scan
  | [], s => (.resolved (), s)
  | .text text :: rest, s =>
      forContent rest { s with finalText := s.finalText ++ [text] }
  | .tool_use id toolName toolArgs :: rest, s =>
      let s1 : Scan :=
        { s with hasToolCalls := true
                 finalText := s.finalText ++ [callingLine toolName toolArgs]
                 world := s.world.emit (.callTool toolName toolArgs) }
      match s.world.toolOutcomes with
      | [] => (.pending, s1)
      | .error e :: outcomes =>
          (.rejected e, { s1 with world := { s1.world with toolOutcomes := outcomes } })
      | .ok content :: outcomes =>
          forContent rest
            { s1 with world := { s1.world with toolOutcomes := outcomes }
                      toolResults := s1.toolResults ++ [⟨id, content⟩] }
  | .other _ :: rest, s => forContent rest s

/-- How control leaves `processQuery`: the outcome, and the local arrays `messages` and
`finalText` at that moment. -/
structure QueryRun where
  outcome : Outcome String
  messages : List Message
  finalText : List String
  world : World

/-- The `while (continueConversation)` loop of lines 65-113 and the `return` of line
114.  The first argument is the script of the LLM calls still to come; the world that is
returned holds what is left of it. -/
def whileContinue (tools : List Tool) :
    List (Except JsError (List ContentBlock)) → List Message → List String → World → QueryRun
  | [], messages, finalText, w =>
      let params : CreateParams := ⟨"claude-3-5-sonnet-20241022", 1000, messages, tools⟩
      ⟨.pending, messages, finalText, { w.emit (.messagesCreate params) with responses := [] }⟩
  | .error e :: later, messages, finalText, w =>
      let params : CreateParams := ⟨"claude-3-5-sonnet-20241022", 1000, messages, tools⟩
      ⟨.rejected e, messages, finalText,
        { w.emit (.messagesCreate params) with responses := later }⟩
  | .ok content :: later, messages, finalText, w =>
      let params : CreateParams := ⟨"claude-3-5-sonnet-20241022", 1000, messages, tools⟩
      let w1 : World := { w.emit (.messagesCreate params) with responses := later }
      let messages1 := messages ++ [⟨.assistant, .blocks content⟩]
      match forContent content ⟨finalText, false, [], w1⟩ with
      | (.resolved _, s) =>
          if s.hasToolCalls then
            whileContinue tools later (messages1 ++ [⟨.user, .toolResults s.toolResults⟩])
              s.finalText s.world
          else
            ⟨.resolved (String.intercalate "\n" s.finalText), messages1, s.finalText, s.world⟩
      | (.rejected e, s) => ⟨.rejected e, messages1, s.finalText, s.world⟩
      | (.pending, s) => ⟨.pending, messages1, s.finalText, s.world⟩

/-- The body of `processQuery`, with its local state when control leaves it. -/
def runQuery (tools : List Tool) (query : String) (w : World) : QueryRun :=
  whileContinue tools w.responses [⟨.user, .query query⟩] [] w

/-- The method `processQuery(query)`: what the returned promise settles to. -/
def processQuery (client : MCPClient) (query : String) (w : World) : Outcome String × World :=
  let run := runQuery client.tools query w
  (run.outcome, run.world)

/-! ## `connectToServer`, `chatLoop`, `cleanup`, `main` -/

/-- The method `connectToServer()`, lines 23-49. -/
def connectToServer (client : MCPClient) (w : World) : Outcome Unit × MCPClient × World :=
  let transport : String × List String := ("npx", ["@playwright/mcp@latest"])
  let client1 : MCPClient := { client with transport := some transport }
  let w1 := (w.emit (.connect transport.1 transport.2)).emit .listTools
  match w.listing with
  | .resolved listed =>
      let tools : List Tool := listed.map fun tool => ⟨tool.name, tool.description, tool.inputSchema⟩
      (.resolved (), { client1 with tools := tools },
        w1.emit (.consoleLog [.str "Connected to server with tools:", .names (tools.map (·.name))]))
  | .rejected e =>
      (.rejected e, client1,
        w1.emit (.consoleLog [.str "Failed to connect to Playwright MCP server: ", .error e]))
  | .pending => (.pending, client1, w1)

/-- The value of `message.toLowerCase()`.  Letters outside `A`-`Z` are left as they are:
the only use is the comparison with `"quit"`, and the lower-case mapping of no other
character gives one of `q`, `u`, `i`, `t`. -/
def toLowerCase (s : String) : String :=
  String.mk (s.data.map fun c =>
    if 65 ≤ c.toNat ∧ c.toNat ≤ 90 then Char.ofNat (c.toNat + 32) else c)

/-- The `while (true)` loop of lines 127-134.  The first argument is the input lines
still to come. -/
def whileTrue (client : MCPClient) : List String → World → Outcome Unit × World
  | [], w => (.pending, { w.emit (.question "\nQuery: ") with stdin := [] })
  | message :: later, w =>
      let w1 : World := { w.emit (.question "\nQuery: ") with stdin := later }
      if toLowerCase message = "quit" then (.resolved (), w1)
      else
        match processQuery client message w1 with
        | (.resolved response, w2) =>
            whileTrue client later (w2.emit (.consoleLog [.str ("\n" ++ response)]))
        | (.rejected e, w2) => (.rejected e, w2)
        | (.pending, w2) => (.pending, w2)

/-- The method `chatLoop()`, lines 116-139: the `finally` block runs when the `try`
block is left, by `break` or by an error. -/
def chatLoop (client : MCPClient) (w : World) : Outcome Unit × World :=
  let w1 := ((w.emit .createInterface).emit (.consoleLog [.str "\nMCP Client Started!"])).emit
    (.consoleLog [.str "Type your queries or \x27quit\x27 to exit."])
  match whileTrue client w1.stdin w1 with
  | (.resolved u, w2) => (.resolved u, w2.emit .rlClose)
  | (.rejected e, w2) => (.rejected e, w2.emit .rlClose)
  | (.pending, w2) => (.pending, w2)

/-- The method `cleanup()`, lines 140-145. -/
def cleanup (_client : MCPClient) (w : World) : Outcome Unit × World :=
  (w.closing, w.emit .mcpClose)

/-- How `main` ends: `process.exit`, an error that leaves `main`, or never. -/
inductive MainResult where
  | exited (code : Int)
  | rejected (reason : JsError)
  | pending

/-- The function `main()`, lines 147-157. -/
def main (w : World) : MainResult × World :=
  let mcpClient : MCPClient := ⟨none, []⟩
  let tried : Outcome Unit × MCPClient × World :=
    match connectToServer mcpClient w with
    | (.resolved _, client1, w1) =>
        let r := chatLoop client1 w1
        (r.1, client1, r.2)
    | r => r
  match tried with
  | (.pending, _, w2) => (.pending, w2)
  | (_, client2, w2) =>
      match cleanup client2 w2 with
      | (.resolved _, w3) => (.exited 0, w3.emit (.exit 0))
      | (.rejected e, w3) => (.rejected e, w3)
      | (.pending, w3) => (.pending, w3)

/-! ## Vocabulary of the statements -/

/-- Whether a content block is a Tool-Use Block. -/
def isToolUse : ContentBlock → Bool
  | .tool_use _ _ _ => true
  | _ => false

/-- The entry a content block contributes to the answer: its text for a Text Block, the
calling line for a Tool-Use Block, nothing for any other block. -/
def blockEntries : ContentBlock → List String
  | .text text => [text]
  | .tool_use _ name input => [callingLine name input]
  | .other _ => []

/-- The provider calls of the Tool-Use Blocks of a response, in emitted order. -/
def toolCallsOf : List ContentBlock → List Event
  | [] => []
  | .tool_use _ name input :: rest => .callTool name input :: toolCallsOf rest
  | _ :: rest => toolCallsOf rest

/-- The ids of the Tool-Use Blocks of a response, in emitted order. -/
def toolUseIds : List ContentBlock → List String
  | [] => []
  | .tool_use id _ _ :: rest => id :: toolUseIds rest
  | _ :: rest => toolUseIds rest

/-- The fields of a Tool-Use Block. -/
structure ToolUse where
  id : String
  name : String
  input : Json

/-- The Tool-Use Blocks of a response, in emitted order. -/
def toolUses : List ContentBlock → List ToolUse
  | [] => []
  | .tool_use id name input :: rest => ⟨id, name, input⟩ :: toolUses rest
  | _ :: rest => toolUses rest

/-- The Tool-Result Blocks pairing the j-th Tool-Use Block with the j-th result. -/
def toolResultsOf (content : List ContentBlock) (results : List Json) : List ToolResultBlock :=
  List.zipWith (fun id result => ⟨id, result⟩) (toolUseIds content) results

/-- One round of tool calls: a response and the results of its tool invocations. -/
structure Round where
  content : List ContentBlock
  results : List Json

/-- A round with at least one Tool-Use Block and one result for each of them. -/
def Round.IsToolRound (r : Round) : Prop :=
  r.content.any isToolUse = true ∧ r.results.length = (toolUseIds r.content).length

/-- The two messages a round appends to the history. -/
def roundMessages (r : Round) : List Message :=
  [⟨.assistant, .blocks r.content⟩, ⟨.user, .toolResults (toolResultsOf r.content r.results)⟩]

/-- The LLM call that sends the history `messages`. -/
def createEvent (tools : List Tool) (messages : List Message) : Event :=
  .messagesCreate ⟨"claude-3-5-sonnet-20241022", 1000, messages, tools⟩

/-- The calls of a sequence of rounds that starts from the history `messages`. -/
def roundsLog (tools : List Tool) : List Message → List Round → List Event
  | _, [] => []
  | messages, r :: rs =>
      createEvent tools messages :: (toolCallsOf r.content ++
        roundsLog tools (messages ++ roundMessages r) rs)

/-- The histories sent by the LLM calls of a log, in call order. -/
def histories : List Event → List (List Message)
  | [] => []
  | .messagesCreate params :: rest => params.messages :: histories rest
  | _ :: rest => histories rest

/-- Whether an event is an LLM call. -/
def isCreate : Event → Bool
  | .messagesCreate _ => true
  | _ => false

/-- Whether an event is a provider tool invocation. -/
def isCallTool : Event → Bool
  | .callTool _ _ => true
  | _ => false

/-- The number of LLM calls in a log. -/
def llmCalls (log : List Event) : Nat := log.countP isCreate

/-- The number of provider tool invocations in a log. -/
def providerCalls (log : List Event) : Nat := log.countP isCallTool

/-- The histories sent by a sequence of rounds that starts from the history `messages`,
the one sent by the call after the last round included. -/
def sentHistories : List Message → List Round → List (List Message)
  | messages, [] => [messages]
  | messages, r :: rs => messages :: sentHistories (messages ++ roundMessages r) rs

/-- The content blocks of all rounds and of the final response, in round order and,
within a round, in emitted order. -/
def allBlocks (rounds : List Round) (final : List ContentBlock) : List ContentBlock :=
  rounds.flatMap (·.content) ++ final

/-- A session in which the model answers "4" at once. -/
def arithmeticWorld : World :=
  { listing := .resolved []
    responses := [.ok [.text "4"]]
    toolOutcomes := []
    stdin := []
    closing := .resolved ()
    log := [] }

/-- A session in which the model asks for a screenshot and then answers "Done". -/
def screenshotWorld : World :=
  { listing := .resolved [⟨"screenshot", some "Take a screenshot", .obj .nil⟩]
    responses := [.ok [.tool_use "toolu_01" "screenshot" (.obj .nil)], .ok [.text "Done"]]
    toolOutcomes := [.ok (.arr (.cons (.str "image") .nil))]
    stdin := []
    closing := .resolved ()
    log := [] }

/-- A session in which one response asks for two tools, with a text between them. -/
def twoToolsWorld : World :=
  { listing := .resolved []
    responses :=
      [.ok [.tool_use "toolu_a" "browser_navigate" (.obj (.cons "url" (.str "https://example.com") .nil)),
            .text "and then",
            .tool_use "toolu_b" "browser_snapshot" (.obj .nil)],
       .ok [.text "Finished"]]
    toolOutcomes := [.ok (.str "navigated"), .ok (.str "snapshot")]
    stdin := []
    closing := .resolved ()
    log := [] }

/-- A session with two rounds of one tool call each before the final answer, met after
an earlier query has left one LLM call in the log. -/
def twoRoundsWorld : World :=
  { listing := .resolved []
    responses :=
      [.ok [.tool_use "toolu_1" "browser_navigate" (.obj .nil)],
       .ok [.text "Looking.", .tool_use "toolu_2" "browser_snapshot" (.obj .nil)],
       .ok [.text "Finished"]]
    toolOutcomes := [.ok (.str "navigated"), .ok (.str "snapshot")]
    stdin := []
    closing := .resolved ()
    log := [.messagesCreate ⟨"claude-3-5-sonnet-20241022", 1000, [⟨.user, .query "hello"⟩], []⟩] }

/-- A session in which the second tool invocation of a response raises. -/
def failingToolWorld : World :=
  { listing := .resolved []
    responses :=
      [.ok [.tool_use "toolu_a" "browser_navigate" (.obj .nil),
            .tool_use "toolu_b" "browser_click" (.obj .nil),
            .tool_use "toolu_c" "browser_snapshot" (.obj .nil)],
       .ok [.text "never asked for"]]
    toolOutcomes := [.ok (.str "navigated"), .error ⟨"element not found"⟩, .ok (.str "snapshot")]
    stdin := []
    closing := .resolved ()
    log := [] }

/-- A session in which the first LLM call raises. -/
def failingModelWorld : World :=
  { listing := .resolved []
    responses := [.error ⟨"rate limited"⟩, .ok [.text "never asked for"]]
    toolOutcomes := []
    stdin := []
    closing := .resolved ()
    log := [] }

/-- A client whose catalog holds the single tool `screenshot`. -/
def screenshotClient : MCPClient :=
  { transport := some ("npx", ["@playwright/mcp@latest"])
    tools := [⟨"screenshot", some "Take a screenshot", .obj .nil⟩] }

/-- A session in which the model asks for a tool that is not in the catalog, and the
provider answers the invocation without raising. -/
def unknownToolWorld : World :=
  { listing := .resolved [⟨"screenshot", some "Take a screenshot", .obj .nil⟩]
    responses := [.ok [.tool_use "toolu_x" "no_such_tool" (.obj .nil)], .ok [.text "Done"]]
    toolOutcomes := [.ok (.str "Unknown tool: no_such_tool")]
    stdin := []
    closing := .resolved ()
    log := [] }

/-- A session in which the model asks for a tool that is not in the catalog, and the
provider raises on the invocation. -/
def rejectedToolWorld : World :=
  { listing := .resolved [⟨"screenshot", some "Take a screenshot", .obj .nil⟩]
    responses := [.ok [.tool_use "toolu_x" "no_such_tool" (.obj .nil)], .ok [.text "Done"]]
    toolOutcomes := [.error ⟨"Tool not found"⟩]
    stdin := []
    closing := .resolved ()
    log := [] }

/-- A session of three input lines in which the LLM call of the first query raises. -/
def failingSessionWorld : World :=
  { listing := .resolved []
    responses := [.error ⟨"rate limited"⟩, .ok [.text "4"]]
    toolOutcomes := []
    stdin := ["hello", "what is 2+2", "quit"]
    closing := .resolved ()
    log := [] }

/-- The world in which the first query of `chatLoop` runs: the interface is created, the
two greeting lines are printed and the first line is read, `later` being the lines left. -/
def promptedWorld (w : World) (later : List String) : World :=
  { (((w.emit .createInterface).emit (.consoleLog [.str "\nMCP Client Started!"])).emit
      (.consoleLog [.str "Type your queries or \x27quit\x27 to exit."])).emit
      (.question "\nQuery: ") with stdin := later }

/-- An input line that is exactly "quit" in any letter case. -/
def IsQuitWord (message : String) : Prop :=
  ∃ a b c d : Char, message = String.mk [a, b, c, d] ∧
    (a = 'q' ∨ a = 'Q') ∧ (b = 'u' ∨ b = 'U') ∧ (c = 'i' ∨ c = 'I') ∧ (d = 't' ∨ d = 'T')

/-- The calls with which `chatLoop` starts, up to the first prompt. -/
def greeting : List Event :=
  [.createInterface, .consoleLog [.str "\nMCP Client Started!"],
   .consoleLog [.str "Type your queries or \x27quit\x27 to exit."], .question "\nQuery: "]

/-- A session in which the user types QUIT at the first prompt. -/
def quitWorld : World :=
  { listing := .resolved [⟨"screenshot", some "Take a screenshot", .obj .nil⟩]
    responses := [.ok [.text "never asked for"]]
    toolOutcomes := []
    stdin := ["QUIT", "hello"]
    closing := .resolved ()
    log := [] }

/-- A session in which listing the provider's tools fails. -/
def unreachableWorld : World :=
  { listing := .rejected ⟨"Connection closed"⟩
    responses := [.ok [.text "never asked for"]]
    toolOutcomes := []
    stdin := ["hello", "quit"]
    closing := .resolved ()
    log := [] }

/-- A session in which the user types quit between blanks, and then quit. -/
def paddedQuitWorld : World :=
  { listing := .resolved []
    responses := [.ok [.text "Do you want to leave?"]]
    toolOutcomes := []
    stdin := [" quit ", "quit"]
    closing := .resolved ()
    log := [] }

/-- Whether an event is a call made by `processQuery`: an LLM call or a tool invocation. -/
def isQueryEvent : Event → Bool
  | .messagesCreate _ => true
  | .callTool _ _ => true
  | _ => false

/-- Whether an event is the release of the provider connection. -/
def isMcpClose : Event → Bool
  | .mcpClose => true
  | _ => false

/-- Whether an event opens the console interface, the first step of `chatLoop`. -/
def isCreateInterface : Event → Bool
  | .createInterface => true
  | _ => false

/-! ## The content-block loop -/

theorem forContent_append_ok (pre : List ContentBlock) :
    ∀ (more : List ContentBlock) (results : List Json) (later : List (Except JsError Json))
      (s : Scan),
      results.length = (toolUseIds pre).length →
      s.world.toolOutcomes = results.map Except.ok ++ later →
      forContent (pre ++ more) s =
        forContent more
          { finalText := s.finalText ++ pre.flatMap blockEntries
            hasToolCalls := s.hasToolCalls || pre.any isToolUse
            toolResults := s.toolResults ++ toolResultsOf pre results
            world := { s.world with toolOutcomes := later
                                    log := s.world.log ++ toolCallsOf pre } } := by
  induction pre with
  | nil =>
    intro more results later s hlen hout
    have hr : results = [] := by
      cases results with
      | nil => rfl
      | cons a t => simp [toolUseIds] at hlen
    subst hr
    simp only [List.map_nil, List.nil_append] at hout
    cases s with
    | mk ft h tr w =>
      cases w with
      | mk l r t i c g =>
        simp only at hout
        subst hout
        simp [toolResultsOf, toolCallsOf, toolUseIds]
  | cons b pre ih =>
    intro more results later s hlen hout
    cases b with
    | text t =>
      rw [List.cons_append, forContent]
      rw [ih more results later _ (by simpa [toolUseIds] using hlen) (by simpa using hout)]
      simp [blockEntries, isToolUse, toolResultsOf, toolUseIds, toolCallsOf]
    | other ty =>
      rw [List.cons_append, forContent]
      rw [ih more results later _ (by simpa [toolUseIds] using hlen) (by simpa using hout)]
      simp [blockEntries, isToolUse, toolResultsOf, toolUseIds, toolCallsOf]
    | tool_use id name input =>
      cases results with
      | nil => simp [toolUseIds] at hlen
      | cons res results =>
        simp only [List.map_cons, List.cons_append] at hout
        rw [List.cons_append, forContent]
        simp only [hout]
        rw [ih more results later _ (by simpa [toolUseIds] using hlen) (by simp [World.emit])]
        simp [blockEntries, isToolUse, toolResultsOf, toolUseIds, toolCallsOf, World.emit]

theorem forContent_ok (content : List ContentBlock) (results : List Json)
    (later : List (Except JsError Json)) (s : Scan)
    (hlen : results.length = (toolUseIds content).length)
    (hout : s.world.toolOutcomes = results.map Except.ok ++ later) :
    forContent content s =
      (.resolved (),
        { finalText := s.finalText ++ content.flatMap blockEntries
          hasToolCalls := s.hasToolCalls || content.any isToolUse
          toolResults := s.toolResults ++ toolResultsOf content results
          world := { s.world with toolOutcomes := later
                                  log := s.world.log ++ toolCallsOf content } }) := by
  have h := forContent_append_ok content [] results later s hlen hout
  rw [List.append_nil] at h
  rw [h, forContent]

theorem forContent_raise (pre post : List ContentBlock) (id name : String) (input : Json)
    (results : List Json) (e : JsError) (later : List (Except JsError Json)) (s : Scan)
    (hlen : results.length = (toolUseIds pre).length)
    (hout : s.world.toolOutcomes = results.map Except.ok ++ .error e :: later) :
    forContent (pre ++ .tool_use id name input :: post) s =
      (.rejected e,
        { finalText := s.finalText ++ pre.flatMap blockEntries ++ [callingLine name input]
          hasToolCalls := true
          toolResults := s.toolResults ++ toolResultsOf pre results
          world := { s.world with toolOutcomes := later
                                  log := s.world.log ++ toolCallsOf pre ++
                                    [.callTool name input] } }) := by
  rw [forContent_append_ok pre _ results (.error e :: later) s hlen hout, forContent]
  simp [World.emit]

theorem whileContinue_responses (tools : List Tool)
    (script : List (Except JsError (List ContentBlock))) (messages : List Message)
    (finalText : List String) (w : World) (stale : List (Except JsError (List ContentBlock))) :
    whileContinue tools script messages finalText { w with responses := stale } =
      whileContinue tools script messages finalText w := by
  cases script with
  | nil => rfl
  | cons r later =>
    cases r with
    | error e => rfl
    | ok content => rfl

theorem whileContinue_rounds (tools : List Tool) (rounds : List Round) :
    ∀ (script : List (Except JsError (List ContentBlock))) (later : List (Except JsError Json))
      (messages : List Message) (finalText : List String) (w : World),
      (∀ r ∈ rounds, r.IsToolRound) →
      w.toolOutcomes = (rounds.flatMap (·.results)).map Except.ok ++ later →
      whileContinue tools (rounds.map (fun r => Except.ok r.content) ++ script) messages
          finalText w =
        whileContinue tools script (messages ++ rounds.flatMap roundMessages)
          (finalText ++ rounds.flatMap (fun r => r.content.flatMap blockEntries))
          { w with toolOutcomes := later
                   log := w.log ++ roundsLog tools messages rounds } := by
  induction rounds with
  | nil =>
    intro script later messages finalText w _ hout
    simp only [List.flatMap_nil, List.map_nil, List.nil_append] at hout
    cases w with
    | mk l r t i c g =>
      simp only at hout
      subst hout
      simp [roundsLog]
  | cons r rounds ih =>
    intro script later messages finalText w hr hout
    have hr0 := hr r (List.mem_cons_self _ _)
    have hrs : ∀ r' ∈ rounds, r'.IsToolRound := fun r' h => hr r' (List.mem_cons_of_mem _ h)
    simp only [List.flatMap_cons, List.map_append, List.append_assoc] at hout
    rw [List.map_cons, List.cons_append, whileContinue]
    simp only
    rw [forContent_ok r.content r.results
      ((rounds.flatMap (·.results)).map Except.ok ++ later) _ hr0.2 (by simpa [World.emit] using hout)]
    simp only [hr0.1, Bool.false_or, if_true]
    rw [ih script later _ _ _ hrs (by simp)]
    rw [← whileContinue_responses tools script _ _ _ w.responses]
    simp [roundsLog, roundMessages, World.emit, createEvent]

/-! ## What the loops leave untouched, and what they log -/

theorem forContent_frame (content : List ContentBlock) :
    ∀ s : Scan,
      (forContent content s).2.world.stdin = s.world.stdin ∧
      (forContent content s).2.world.closing = s.world.closing ∧
      (forContent content s).2.world.listing = s.world.listing ∧
      (forContent content s).2.world.responses = s.world.responses ∧
      ∃ calls, (forContent content s).2.world.log = s.world.log ++ calls ∧
        ∀ e ∈ calls, isCallTool e = true := by
  induction content with
  | nil =>
    intro s
    exact ⟨rfl, rfl, rfl, rfl, [], by simp [forContent], by simp⟩
  | cons b content ih =>
    intro s
    cases b with
    | text t =>
      rw [forContent]
      exact ih _
    | other ty =>
      rw [forContent]
      exact ih _
    | tool_use id name input =>
      rw [forContent]
      cases hout : s.world.toolOutcomes with
      | nil =>
        exact ⟨rfl, rfl, rfl, rfl, [.callTool name input], rfl, by simp [isCallTool]⟩
      | cons o outcomes =>
        cases o with
        | error e =>
          exact ⟨rfl, rfl, rfl, rfl, [.callTool name input], rfl, by simp [isCallTool]⟩
        | ok result =>
          simp only
          obtain ⟨h1, h2, h3, h4, calls, h5, h6⟩ := ih
            { finalText := s.finalText ++ [callingLine name input]
              hasToolCalls := true
              toolResults := s.toolResults ++ [⟨id, result⟩]
              world := { s.world.emit (.callTool name input) with toolOutcomes := outcomes } }
          refine ⟨h1, h2, h3, h4, .callTool name input :: calls, ?_, ?_⟩
          · rw [h5]
            simp [World.emit]
          · intro e he
            rcases List.mem_cons.1 he with rfl | he
            · rfl
            · exact h6 e he

theorem whileContinue_frame (tools : List Tool)
    (script : List (Except JsError (List ContentBlock))) :
    ∀ (messages : List Message) (finalText : List String) (w : World),
      (whileContinue tools script messages finalText w).world.stdin = w.stdin ∧
      (whileContinue tools script messages finalText w).world.closing = w.closing ∧
      (whileContinue tools script messages finalText w).world.listing = w.listing ∧
      ∃ calls, (whileContinue tools script messages finalText w).world.log =
          w.log ++ createEvent tools messages :: calls ∧
        ∀ e ∈ calls, isQueryEvent e = true := by
  induction script with
  | nil =>
    intro messages finalText w
    exact ⟨rfl, rfl, rfl, [], rfl, by simp⟩
  | cons r later ih =>
    intro messages finalText w
    cases r with
    | error e => exact ⟨rfl, rfl, rfl, [], rfl, by simp⟩
    | ok content =>
      rw [whileContinue]
      simp only
      obtain ⟨h1, h2, h3, _, calls, h5, h6⟩ := forContent_frame content
        ⟨finalText, false, [],
          { w.emit (.messagesCreate ⟨"claude-3-5-sonnet-20241022", 1000, messages, tools⟩)
            with responses := later }⟩
      have h6' : ∀ e ∈ calls, isQueryEvent e = true := by
        intro e he
        have := h6 e he
        cases e <;> simp_all [isCallTool, isQueryEvent]
      generalize forContent content _ = res at h1 h2 h3 h5
      obtain ⟨o, s⟩ := res
      simp only at h1 h2 h3 h5
      cases o with
      | pending =>
        exact ⟨h1, h2, h3, calls, by rw [h5]; simp [World.emit, createEvent], h6'⟩
      | rejected e =>
        exact ⟨h1, h2, h3, calls, by rw [h5]; simp [World.emit, createEvent], h6'⟩
      | resolved u =>
        simp only
        by_cases hc : s.hasToolCalls = true
        · simp only [hc, if_true]
          obtain ⟨g1, g2, g3, more, g5, g6⟩ := ih
            (messages ++ [⟨.assistant, .blocks content⟩] ++ [⟨.user, .toolResults s.toolResults⟩])
            s.finalText s.world
          refine ⟨g1.trans h1, g2.trans h2, g3.trans h3, calls ++ createEvent tools
            (messages ++ [⟨.assistant, .blocks content⟩] ++
              [⟨.user, .toolResults s.toolResults⟩]) :: more, ?_, ?_⟩
          · rw [g5, h5]
            simp [World.emit, createEvent]
          · intro e he
            rcases List.mem_append.1 he with he | he
            · exact h6' e he
            · rcases List.mem_cons.1 he with rfl | he
              · rfl
              · exact g6 e he
        · simp only [hc]
          exact ⟨h1, h2, h3, calls, by simp [h5, World.emit, createEvent], h6'⟩

theorem runQuery_frame (tools : List Tool) (query : String) (w : World) :
    (runQuery tools query w).world.stdin = w.stdin ∧
    (runQuery tools query w).world.closing = w.closing ∧
    (runQuery tools query w).world.listing = w.listing ∧
    ∃ calls, (runQuery tools query w).world.log =
        w.log ++ createEvent tools [⟨.user, .query query⟩] :: calls ∧
      ∀ e ∈ calls, isQueryEvent e = true :=
  whileContinue_frame tools w.responses _ _ w

/-! ## Runs of `processQuery` -/

theorem runQuery_rounds (tools : List Tool) (query : String) (w : World) (rounds : List Round)
    (script : List (Except JsError (List ContentBlock))) (later : List (Except JsError Json))
    (hrounds : ∀ r ∈ rounds, r.IsToolRound)
    (hresp : w.responses = rounds.map (fun r => Except.ok r.content) ++ script)
    (hout : w.toolOutcomes = (rounds.flatMap (·.results)).map Except.ok ++ later) :
    runQuery tools query w =
      whileContinue tools script ([⟨.user, .query query⟩] ++ rounds.flatMap roundMessages)
        (rounds.flatMap (fun r => r.content.flatMap blockEntries))
        { w with toolOutcomes := later
                 log := w.log ++ roundsLog tools [⟨.user, .query query⟩] rounds } := by
  conv_lhs => rw [runQuery, hresp, whileContinue_rounds tools rounds script later _ _ w hrounds hout]
  simp

theorem whileContinue_answer (tools : List Tool) (final : List ContentBlock)
    (rest : List (Except JsError (List ContentBlock))) (messages : List Message)
    (finalText : List String) (w : World) (hfinal : final.any isToolUse = false) :
    whileContinue tools (.ok final :: rest) messages finalText w =
      ⟨.resolved (String.intercalate "\n" (finalText ++ final.flatMap blockEntries)),
        messages ++ [⟨.assistant, .blocks final⟩],
        finalText ++ final.flatMap blockEntries,
        { w with responses := rest
                 log := w.log ++ [createEvent tools messages] }⟩ := by
  have hids : ([] : List Json).length = (toolUseIds final).length := by
    clear w rest messages finalText
    induction final with
    | nil => rfl
    | cons b final ih =>
      cases b with
      | tool_use id name input => simp [isToolUse] at hfinal
      | text t =>
        have := ih (by simpa [isToolUse] using hfinal)
        simpa [toolUseIds] using this
      | other ty =>
        have := ih (by simpa [isToolUse] using hfinal)
        simpa [toolUseIds] using this
  have hcalls : toolCallsOf final = [] := by
    clear w rest messages finalText hids
    induction final with
    | nil => rfl
    | cons b final ih =>
      cases b with
      | tool_use id name input => simp [isToolUse] at hfinal
      | text t =>
        have := ih (by simpa [isToolUse] using hfinal)
        simpa [toolCallsOf] using this
      | other ty =>
        have := ih (by simpa [isToolUse] using hfinal)
        simpa [toolCallsOf] using this
  rw [whileContinue]
  simp only
  rw [forContent_ok final [] w.toolOutcomes _ hids (by simp [World.emit])]
  simp [hfinal, hcalls, toolResultsOf, World.emit, createEvent]

theorem runQuery_answer (tools : List Tool) (query : String) (w : World) (rounds : List Round)
    (final : List ContentBlock) (rest : List (Except JsError (List ContentBlock)))
    (later : List (Except JsError Json))
    (hrounds : ∀ r ∈ rounds, r.IsToolRound) (hfinal : final.any isToolUse = false)
    (hresp : w.responses = rounds.map (fun r => Except.ok r.content) ++ .ok final :: rest)
    (hout : w.toolOutcomes = (rounds.flatMap (·.results)).map Except.ok ++ later) :
    runQuery tools query w =
      ⟨.resolved (String.intercalate "\n"
          (rounds.flatMap (fun r => r.content.flatMap blockEntries) ++
            final.flatMap blockEntries)),
        [⟨.user, .query query⟩] ++ rounds.flatMap roundMessages ++ [⟨.assistant, .blocks final⟩],
        rounds.flatMap (fun r => r.content.flatMap blockEntries) ++ final.flatMap blockEntries,
        { w with responses := rest
                 toolOutcomes := later
                 log := w.log ++ roundsLog tools [⟨.user, .query query⟩] rounds ++
                   [createEvent tools ([⟨.user, .query query⟩] ++ rounds.flatMap roundMessages)] }⟩ := by
  rw [runQuery_rounds tools query w rounds _ later hrounds hresp hout,
    whileContinue_answer tools final rest _ _ _ hfinal]

theorem countP_isCreate_toolCallsOf (content : List ContentBlock) :
    (toolCallsOf content).countP isCreate = 0 := by
  induction content with
  | nil => rfl
  | cons b content ih =>
    cases b <;> simp [toolCallsOf, isCreate, ih]

theorem countP_isCallTool_toolCallsOf (content : List ContentBlock) :
    (toolCallsOf content).countP isCallTool = content.countP isToolUse := by
  induction content with
  | nil => rfl
  | cons b content ih =>
    cases b <;> simp [toolCallsOf, isCallTool, isToolUse, ih]

theorem llmCalls_roundsLog (tools : List Tool) (rounds : List Round) :
    ∀ messages, llmCalls (roundsLog tools messages rounds) = rounds.length := by
  induction rounds with
  | nil => intro _; rfl
  | cons r rounds ih =>
    intro messages
    have := ih (messages ++ roundMessages r)
    simp only [llmCalls] at this ⊢
    simp [roundsLog, createEvent, isCreate, List.countP_cons, List.countP_append,
      countP_isCreate_toolCallsOf, this]

theorem providerCalls_roundsLog (tools : List Tool) (rounds : List Round) :
    ∀ messages, providerCalls (roundsLog tools messages rounds) =
      (rounds.flatMap (·.content)).countP isToolUse := by
  induction rounds with
  | nil => intro _; rfl
  | cons r rounds ih =>
    intro messages
    have := ih (messages ++ roundMessages r)
    simp only [providerCalls] at this ⊢
    simp [roundsLog, createEvent, isCallTool, List.countP_cons, List.countP_append,
      countP_isCallTool_toolCallsOf, this]

theorem flatMap_blockEntries_allBlocks (rounds : List Round) (final : List ContentBlock) :
    (allBlocks rounds final).flatMap blockEntries =
      rounds.flatMap (fun r => r.content.flatMap blockEntries) ++ final.flatMap blockEntries := by
  simp [allBlocks, List.flatMap_append, List.flatMap_assoc]

theorem toolUseIds_of_not_any (content : List ContentBlock)
    (h : content.any isToolUse = false) : toolUseIds content = [] := by
  induction content with
  | nil => rfl
  | cons b content ih =>
    cases b with
    | tool_use id name input => simp [isToolUse] at h
    | text t =>
      have := ih (by simpa [isToolUse] using h)
      simpa [toolUseIds] using this
    | other ty =>
      have := ih (by simpa [isToolUse] using h)
      simpa [toolUseIds] using this

theorem forContent_resolved (content : List ContentBlock) :
    ∀ (s s' : Scan) (u : Unit), forContent content s = (.resolved u, s') →
      ∃ results : List Json, results.length = (toolUseIds content).length ∧
        s.world.toolOutcomes = results.map Except.ok ++ s'.world.toolOutcomes := by
  induction content with
  | nil =>
    intro s s' u h
    rw [forContent] at h
    injection h with _ h
    subst h
    exact ⟨[], rfl, rfl⟩
  | cons b content ih =>
    intro s s' u h
    cases b with
    | text t =>
      rw [forContent] at h
      obtain ⟨results, h1, h2⟩ := ih _ s' u h
      exact ⟨results, by simpa [toolUseIds] using h1, h2⟩
    | other ty =>
      rw [forContent] at h
      obtain ⟨results, h1, h2⟩ := ih _ s' u h
      exact ⟨results, by simpa [toolUseIds] using h1, h2⟩
    | tool_use id name input =>
      rw [forContent] at h
      cases hout : s.world.toolOutcomes with
      | nil => simp [hout] at h
      | cons o outcomes =>
        cases o with
        | error e => simp [hout] at h
        | ok result =>
          simp only [hout] at h
          obtain ⟨results, h1, h2⟩ := ih _ s' u h
          refine ⟨result :: results, by simpa [toolUseIds] using h1, ?_⟩
          simp only [World.emit] at h2
          simp [h2]

theorem whileContinue_resolved (tools : List Tool)
    (script : List (Except JsError (List ContentBlock))) :
    ∀ (messages : List Message) (finalText : List String) (w : World) (answer : String),
      (whileContinue tools script messages finalText w).outcome = .resolved answer →
      ∃ (rounds : List Round) (final : List ContentBlock),
        (∀ r ∈ rounds, r.IsToolRound) ∧ final.any isToolUse = false ∧
        script = rounds.map (fun r => Except.ok r.content) ++
          .ok final :: (whileContinue tools script messages finalText w).world.responses ∧
        w.toolOutcomes = (rounds.flatMap (·.results)).map Except.ok ++
          (whileContinue tools script messages finalText w).world.toolOutcomes := by
  induction script with
  | nil =>
    intro messages finalText w answer h
    simp [whileContinue] at h
  | cons r later ih =>
    intro messages finalText w answer h
    cases r with
    | error e => simp [whileContinue] at h
    | ok content =>
      rw [whileContinue] at h ⊢
      simp only at h ⊢
      cases hfc : forContent content ⟨finalText, false, [],
          { w.emit (.messagesCreate ⟨"claude-3-5-sonnet-20241022", 1000, messages, tools⟩)
            with responses := later }⟩ with
      | mk o s =>
        rw [hfc] at h
        cases o with
        | pending => simp at h
        | rejected e => simp at h
        | resolved u =>
          obtain ⟨results, hlen, hout⟩ := forContent_resolved content _ s u hfc
          have hs := forContent_ok content results s.world.toolOutcomes _ hlen hout
          rw [hfc] at hs
          injection hs with _ hs
          simp only at h ⊢
          by_cases hc : s.hasToolCalls = true
          · simp only [hc, if_true] at h ⊢
            obtain ⟨rounds, final, g1, g2, g3, g4⟩ := ih _ _ _ answer h
            have hany : content.any isToolUse = true := by
              rw [hs] at hc
              simpa using hc
            have hresp : s.world.responses = later := by rw [hs]
            refine ⟨⟨content, results⟩ :: rounds, final, ?_, g2, ?_, ?_⟩
            · intro r hr
              rcases List.mem_cons.1 hr with rfl | hr
              · exact ⟨hany, hlen⟩
              · exact g1 r hr
            · rw [List.map_cons, List.cons_append, ← g3]
            · simp only [World.emit] at hout
              rw [List.flatMap_cons, List.map_append, List.append_assoc, ← g4]
              exact hout
          · simp only [hc] at h ⊢
            have hany : content.any isToolUse = false := by
              rw [hs] at hc
              simpa using hc
            have hresp : s.world.responses = later := by rw [hs]
            refine ⟨[], content, by simp, hany, ?_, ?_⟩
            · simp [hresp]
            · have hnil : results = [] := by
                rw [toolUseIds_of_not_any content hany] at hlen
                exact List.length_eq_zero.1 hlen
              subst hnil
              simpa [World.emit] using hout

theorem runQuery_resolved (tools : List Tool) (query : String) (w : World) (answer : String)
    (h : (runQuery tools query w).outcome = .resolved answer) :
    ∃ (rounds : List Round) (final : List ContentBlock),
      (∀ r ∈ rounds, r.IsToolRound) ∧ final.any isToolUse = false ∧
      w.responses = rounds.map (fun r => Except.ok r.content) ++
        .ok final :: (runQuery tools query w).world.responses ∧
      w.toolOutcomes = (rounds.flatMap (·.results)).map Except.ok ++
        (runQuery tools query w).world.toolOutcomes :=
  whileContinue_resolved tools w.responses _ _ w answer h

/-! ## The claims about `processQuery` -/

/-- C1: when the first N responses each hold a Tool-Use Block, response N+1 holds none
and every tool invocation succeeds, `processQuery` returns an answer after exactly N+1
LLM calls, and the model is not called again: the rest of its script is untouched. -/
theorem processQuery_llm_call_count (client : MCPClient) (query : String) (w : World)
    (rounds : List Round) (final : List ContentBlock)
    (rest : List (Except JsError (List ContentBlock))) (later : List (Except JsError Json))
    (hrounds : ∀ r ∈ rounds, r.IsToolRound) (hfinal : final.any isToolUse = false)
    (hresp : w.responses = rounds.map (fun r => Except.ok r.content) ++ .ok final :: rest)
    (hout : w.toolOutcomes = (rounds.flatMap (·.results)).map Except.ok ++ later) :
    (∃ answer, (processQuery client query w).1 = .resolved answer) ∧
    llmCalls (processQuery client query w).2.log = llmCalls w.log + (rounds.length + 1) ∧
    (processQuery client query w).2.responses = rest := by
  rw [processQuery,
    runQuery_answer client.tools query w rounds final rest later hrounds hfinal hresp hout]
  refine ⟨⟨_, rfl⟩, ?_, rfl⟩
  simp only [llmCalls, List.countP_append]
  have := llmCalls_roundsLog client.tools rounds [⟨.user, .query query⟩]
  simp only [llmCalls] at this
  rw [this]
  simp [createEvent, isCreate, Nat.add_assoc]

/-- C1, on the query "what is 2+2" answered by the single Text Block "4": one LLM call. -/
theorem processQuery_llm_call_count_witness :
    ([.text "4"] : List ContentBlock).any isToolUse = false ∧
    ((∃ answer, (processQuery ⟨none, []⟩ "what is 2+2" arithmeticWorld).1 = .resolved answer) ∧
      llmCalls (processQuery ⟨none, []⟩ "what is 2+2" arithmeticWorld).2.log = 1 ∧
      (processQuery ⟨none, []⟩ "what is 2+2" arithmeticWorld).2.responses = []) :=
  ⟨rfl, processQuery_llm_call_count ⟨none, []⟩ "what is 2+2" arithmeticWorld [] [.text "4"] [] []
    (fun _ h => nomatch h) rfl rfl rfl⟩

/-- C3: `processQuery` returns exactly when the model's responses are some rounds, each
with a Tool-Use Block and all its invocations succeeding, followed by a response without
one; it then returns the newline-join, over all rounds in order and all content blocks in
emitted order, of the block's text for a Text Block and of the line "[Calling tool <name>
with args <JSON of input>]" for a Tool-Use Block, blocks of any other type giving
nothing; and the provider is called once per Tool-Use Block. -/
theorem processQuery_answer_entries (client : MCPClient) (query : String) (w : World) :
    (∀ (rounds : List Round) (final : List ContentBlock)
        (rest : List (Except JsError (List ContentBlock))) (later : List (Except JsError Json)),
      (∀ r ∈ rounds, r.IsToolRound) → final.any isToolUse = false →
      w.responses = rounds.map (fun r => Except.ok r.content) ++ .ok final :: rest →
      w.toolOutcomes = (rounds.flatMap (·.results)).map Except.ok ++ later →
      (processQuery client query w).1 =
        .resolved (String.intercalate "\n" ((allBlocks rounds final).flatMap blockEntries)) ∧
      providerCalls (processQuery client query w).2.log =
        providerCalls w.log + (allBlocks rounds final).countP isToolUse) ∧
    (∀ answer : String, (processQuery client query w).1 = .resolved answer →
      ∃ (rounds : List Round) (final : List ContentBlock),
        (∀ r ∈ rounds, r.IsToolRound) ∧ final.any isToolUse = false ∧
        w.responses = rounds.map (fun r => Except.ok r.content) ++
          .ok final :: (processQuery client query w).2.responses ∧
        answer = String.intercalate "\n" ((allBlocks rounds final).flatMap blockEntries)) := by
  have forward : ∀ (rounds : List Round) (final : List ContentBlock)
      (rest : List (Except JsError (List ContentBlock))) (later : List (Except JsError Json)),
      (∀ r ∈ rounds, r.IsToolRound) → final.any isToolUse = false →
      w.responses = rounds.map (fun r => Except.ok r.content) ++ .ok final :: rest →
      w.toolOutcomes = (rounds.flatMap (·.results)).map Except.ok ++ later →
      (processQuery client query w).1 =
        .resolved (String.intercalate "\n" ((allBlocks rounds final).flatMap blockEntries)) ∧
      providerCalls (processQuery client query w).2.log =
        providerCalls w.log + (allBlocks rounds final).countP isToolUse := by
    intro rounds final rest later hrounds hfinal hresp hout
    rw [processQuery,
      runQuery_answer client.tools query w rounds final rest later hrounds hfinal hresp hout,
      flatMap_blockEntries_allBlocks]
    refine ⟨rfl, ?_⟩
    have hf : final.countP isToolUse = 0 := by
      rw [List.countP_eq_zero]
      intro b hb hbt
      have := List.any_eq_false.1 hfinal b hb
      simp [hbt] at this
    have := providerCalls_roundsLog client.tools rounds [⟨.user, .query query⟩]
    simp only [providerCalls] at this
    simp only [providerCalls, List.countP_append, allBlocks, this, hf]
    simp [createEvent, isCallTool]
  refine ⟨forward, ?_⟩
  intro answer h
  obtain ⟨rounds, final, h1, h2, h3, h4⟩ := runQuery_resolved client.tools query w answer h
  refine ⟨rounds, final, h1, h2, h3, ?_⟩
  have := (forward rounds final _ _ h1 h2 h3 h4).1
  rw [h] at this
  injection this

/-- C3, on the query "take a screenshot": two LLM calls, one provider call, and the
answer "[Calling tool screenshot with args {}]\nDone". -/
theorem processQuery_answer_entries_witness :
    (processQuery ⟨none, []⟩ "take a screenshot" screenshotWorld).1 =
      .resolved "[Calling tool screenshot with args \x7b\x7d]\nDone" ∧
    providerCalls (processQuery ⟨none, []⟩ "take a screenshot" screenshotWorld).2.log = 1 ∧
    llmCalls (processQuery ⟨none, []⟩ "take a screenshot" screenshotWorld).2.log = 2 :=
  have h := (processQuery_answer_entries ⟨none, []⟩ "take a screenshot" screenshotWorld).1
      [⟨[.tool_use "toolu_01" "screenshot" (.obj .nil)], [.arr (.cons (.str "image") .nil)]⟩]
      [.text "Done"] [] []
      (by intro r hr; rw [List.mem_singleton] at hr; subst hr; exact ⟨rfl, rfl⟩)
      rfl rfl rfl
  ⟨h.1, h.2, rfl⟩

theorem roundsLog_append (tools : List Tool) (rounds : List Round) :
    ∀ (messages : List Message) (more : List Round),
      roundsLog tools messages (rounds ++ more) =
        roundsLog tools messages rounds ++
          roundsLog tools (messages ++ rounds.flatMap roundMessages) more := by
  induction rounds with
  | nil => intro messages more; simp [roundsLog]
  | cons r rounds ih =>
    intro messages more
    simp [roundsLog, ih, List.append_assoc]

theorem histories_append (log more : List Event) :
    histories (log ++ more) = histories log ++ histories more := by
  induction log with
  | nil => rfl
  | cons e log ih =>
    cases e <;> simp [histories, ih]

theorem histories_toolCallsOf (content : List ContentBlock) :
    histories (toolCallsOf content) = [] := by
  induction content with
  | nil => rfl
  | cons b content ih =>
    cases b <;> simp [toolCallsOf, histories, ih]

theorem histories_roundsLog (tools : List Tool) (rounds : List Round) :
    ∀ messages : List Message,
      histories (roundsLog tools messages rounds ++
          [createEvent tools (messages ++ rounds.flatMap roundMessages)]) =
        sentHistories messages rounds := by
  induction rounds with
  | nil => intro messages; simp [roundsLog, histories, createEvent, sentHistories]
  | cons r rounds ih =>
    intro messages
    have := ih (messages ++ roundMessages r)
    simp only [histories_append, createEvent, histories, List.append_assoc] at this
    simp [roundsLog, createEvent, histories, sentHistories, histories_append,
      histories_toolCallsOf, this]

theorem sentHistories_length (rounds : List Round) :
    ∀ messages : List Message, (sentHistories messages rounds).length = rounds.length + 1 := by
  induction rounds with
  | nil => intro _; rfl
  | cons r rounds ih => intro messages; simp [sentHistories, ih]

theorem sentHistories_step (rounds : List Round) :
    ∀ (messages : List Message) (i : Nat) (r : Round), rounds[i]? = some r →
      ∃ h, (sentHistories messages rounds)[i]? = some h ∧
        h.length = messages.length + 2 * i ∧
        (sentHistories messages rounds)[i + 1]? = some (h ++ roundMessages r) := by
  induction rounds with
  | nil => intro messages i r h; simp at h
  | cons r0 rounds ih =>
    intro messages i r h
    cases i with
    | zero =>
      simp only [List.getElem?_cons_zero, Option.some.injEq] at h
      subst h
      refine ⟨messages, by simp [sentHistories], by simp, ?_⟩
      cases rounds <;> simp [sentHistories]
    | succ i =>
      simp only [List.getElem?_cons_succ] at h
      obtain ⟨h', g1, g2, g3⟩ := ih (messages ++ roundMessages r0) i r h
      refine ⟨h', by simpa [sentHistories] using g1, ?_, by simpa [sentHistories] using g3⟩
      rw [g2]
      simp [roundMessages]
      omega

theorem runQuery_log_rounds (tools : List Tool) (query : String) (w : World)
    (rounds : List Round) (script : List (Except JsError (List ContentBlock)))
    (later : List (Except JsError Json))
    (hrounds : ∀ r ∈ rounds, r.IsToolRound)
    (hresp : w.responses = rounds.map (fun r => Except.ok r.content) ++ script)
    (hout : w.toolOutcomes = (rounds.flatMap (·.results)).map Except.ok ++ later) :
    ∃ calls, (runQuery tools query w).world.log =
        w.log ++ roundsLog tools [⟨.user, .query query⟩] rounds ++
          [createEvent tools ([⟨.user, .query query⟩] ++ rounds.flatMap roundMessages)] ++
          calls ∧
      ∀ e ∈ calls, isQueryEvent e = true := by
  rw [runQuery_rounds tools query w rounds script later hrounds hresp hout]
  obtain ⟨_, _, _, calls, h, hq⟩ := whileContinue_frame tools script
    ([⟨.user, .query query⟩] ++ rounds.flatMap roundMessages)
    (rounds.flatMap (fun r => r.content.flatMap blockEntries))
    { w with toolOutcomes := later
             log := w.log ++ roundsLog tools [⟨.user, .query query⟩] rounds }
  exact ⟨calls, by rw [h]; simp, hq⟩

theorem toolCallsOf_eq_map (content : List ContentBlock) :
    toolCallsOf content = (toolUses content).map fun u => Event.callTool u.name u.input := by
  induction content with
  | nil => rfl
  | cons b content ih =>
    cases b <;> simp [toolCallsOf, toolUses, ih]

theorem toolUseIds_eq_map (content : List ContentBlock) :
    toolUseIds content = (toolUses content).map (·.id) := by
  induction content with
  | nil => rfl
  | cons b content ih =>
    cases b <;> simp [toolUseIds, toolUses, ih]

/-- C4: for a response whose Tool-Use Blocks are u_1..u_k (k at least 1) and whose tool
invocations all succeed, the calls made between the LLM call that gave the response and
the next LLM call are exactly k provider calls, the j-th being callTool(u_j.name,
u_j.input), and the next LLM call sends the history extended by the assistant message
and by a user message of exactly k Tool-Result Blocks, the j-th holding u_j.id and the
content of the j-th invocation's result. -/
theorem processQuery_tool_results (client : MCPClient) (query : String) (w : World)
    (rounds : List Round) (r : Round) (script : List (Except JsError (List ContentBlock)))
    (later : List (Except JsError Json))
    (hrounds : ∀ r' ∈ rounds, r'.IsToolRound) (hr : r.IsToolRound)
    (hresp : w.responses =
      rounds.map (fun r => Except.ok r.content) ++ .ok r.content :: script)
    (hout : w.toolOutcomes =
      (rounds.flatMap (·.results)).map Except.ok ++ (r.results.map Except.ok ++ later)) :
    (∃ calls, (processQuery client query w).2.log =
      w.log ++ roundsLog client.tools [⟨.user, .query query⟩] rounds ++
        [createEvent client.tools ([⟨.user, .query query⟩] ++ rounds.flatMap roundMessages)] ++
        toolCallsOf r.content ++
        [createEvent client.tools ([⟨.user, .query query⟩] ++ rounds.flatMap roundMessages ++
          [⟨.assistant, .blocks r.content⟩,
           ⟨.user, .toolResults (toolResultsOf r.content r.results)⟩])] ++ calls) ∧
    (toolCallsOf r.content).length = (toolUses r.content).length ∧
    (toolResultsOf r.content r.results).length = (toolUses r.content).length ∧
    ∀ (j : Nat) (u : ToolUse), (toolUses r.content)[j]? = some u →
      ∃ result, r.results[j]? = some result ∧
        (toolCallsOf r.content)[j]? = some (.callTool u.name u.input) ∧
        (toolResultsOf r.content r.results)[j]? = some ⟨u.id, result⟩ := by
  have hlen : r.results.length = (toolUses r.content).length := by
    rw [hr.2, toolUseIds_eq_map, List.length_map]
  refine ⟨?_, ?_, ?_, ?_⟩
  · have hall : ∀ r' ∈ rounds ++ [r], r'.IsToolRound := by
      intro r' h
      rcases List.mem_append.1 h with h | h
      · exact hrounds r' h
      · rw [List.mem_singleton] at h
        subst h
        exact hr
    obtain ⟨calls, h, _⟩ := runQuery_log_rounds client.tools query w (rounds ++ [r]) script
      later hall (by simp [hresp]) (by simp [hout])
    refine ⟨calls, ?_⟩
    rw [processQuery, h, roundsLog_append]
    simp [roundsLog, roundMessages, List.append_assoc]
  · rw [toolCallsOf_eq_map, List.length_map]
  · rw [toolResultsOf, List.length_zipWith, toolUseIds_eq_map, List.length_map, hlen,
      Nat.min_self]
  · intro j u hu
    have hj : j < r.results.length := by
      rw [hlen]
      exact (List.getElem?_eq_some_iff.1 hu).1
    refine ⟨r.results[j], List.getElem?_eq_getElem hj, ?_, ?_⟩
    · rw [toolCallsOf_eq_map, List.getElem?_map, hu]
      rfl
    · rw [toolResultsOf, toolUseIds_eq_map, List.getElem?_zipWith, List.getElem?_map, hu,
        List.getElem?_eq_getElem hj]
      rfl

/-- C4, on a response with two Tool-Use Blocks and a Text Block between them. -/
theorem processQuery_tool_results_witness :
    (∃ calls, (processQuery ⟨none, []⟩ "open and look" twoToolsWorld).2.log =
      [createEvent [] [⟨.user, .query "open and look"⟩],
       .callTool "browser_navigate" (.obj (.cons "url" (.str "https://example.com") .nil)),
       .callTool "browser_snapshot" (.obj .nil),
       createEvent [] [⟨.user, .query "open and look"⟩,
         ⟨.assistant, .blocks
           [.tool_use "toolu_a" "browser_navigate" (.obj (.cons "url" (.str "https://example.com") .nil)),
            .text "and then",
            .tool_use "toolu_b" "browser_snapshot" (.obj .nil)]⟩,
         ⟨.user, .toolResults [⟨"toolu_a", .str "navigated"⟩, ⟨"toolu_b", .str "snapshot"⟩]⟩]]
       ++ calls) :=
  (processQuery_tool_results ⟨none, []⟩ "open and look" twoToolsWorld []
    ⟨[.tool_use "toolu_a" "browser_navigate" (.obj (.cons "url" (.str "https://example.com") .nil)),
      .text "and then",
      .tool_use "toolu_b" "browser_snapshot" (.obj .nil)],
     [.str "navigated", .str "snapshot"]⟩
    [.ok [.text "Finished"]] []
    (fun _ h => nomatch h) ⟨rfl, rfl⟩ rfl rfl).1

/-- C5: whatever the log of earlier queries holds, the LLM calls of one `processQuery`
call send histories that start with the single user message of the query and grow by
appending: while the rounds succeed, the history of call i+1 is that of call i followed
by exactly the assistant message with response i's content blocks and the user message
with that round's Tool-Result Blocks, so that the i-th call (from 0) sees 2i+1 messages. -/
theorem processQuery_history_append_only (client : MCPClient) (query : String) (w : World)
    (rounds : List Round) (script : List (Except JsError (List ContentBlock)))
    (later : List (Except JsError Json))
    (hrounds : ∀ r ∈ rounds, r.IsToolRound)
    (hresp : w.responses = rounds.map (fun r => Except.ok r.content) ++ script)
    (hout : w.toolOutcomes = (rounds.flatMap (·.results)).map Except.ok ++ later) :
    ∃ sent more : List (List Message),
      histories (processQuery client query w).2.log = histories w.log ++ sent ++ more ∧
      sent.length = rounds.length + 1 ∧
      sent[0]? = some [⟨.user, .query query⟩] ∧
      ∀ (i : Nat) (r : Round), rounds[i]? = some r →
        ∃ h, sent[i]? = some h ∧ h.length = 2 * i + 1 ∧
          sent[i + 1]? = some (h ++ [⟨.assistant, .blocks r.content⟩,
            ⟨.user, .toolResults (toolResultsOf r.content r.results)⟩]) := by
  obtain ⟨calls, h, _⟩ := runQuery_log_rounds client.tools query w rounds script later
    hrounds hresp hout
  refine ⟨sentHistories [⟨.user, .query query⟩] rounds, histories calls, ?_,
    sentHistories_length rounds _, ?_, ?_⟩
  · rw [processQuery, h, histories_append, List.append_assoc w.log, histories_append,
      histories_roundsLog]
  · cases rounds <;> simp [sentHistories]
  · intro i r hi
    obtain ⟨h', g1, g2, g3⟩ := sentHistories_step rounds [⟨.user, .query query⟩] i r hi
    refine ⟨h', g1, ?_, g3⟩
    rw [g2]
    simp
    omega

/-- C5, on a query of two tool rounds asked after an earlier query. -/
theorem processQuery_history_append_only_witness :
    ∃ sent more : List (List Message),
      histories (processQuery ⟨none, []⟩ "look at the page" twoRoundsWorld).2.log =
        histories twoRoundsWorld.log ++ sent ++ more ∧
      sent.length = 2 + 1 ∧
      sent[0]? = some [⟨.user, .query "look at the page"⟩] ∧
      ∀ (i : Nat) (r : Round),
        ([⟨[.tool_use "toolu_1" "browser_navigate" (.obj .nil)], [.str "navigated"]⟩,
          ⟨[.text "Looking.", .tool_use "toolu_2" "browser_snapshot" (.obj .nil)],
            [.str "snapshot"]⟩] : List Round)[i]? = some r →
        ∃ h, sent[i]? = some h ∧ h.length = 2 * i + 1 ∧
          sent[i + 1]? = some (h ++ [⟨.assistant, .blocks r.content⟩,
            ⟨.user, .toolResults (toolResultsOf r.content r.results)⟩]) :=
  processQuery_history_append_only ⟨none, []⟩ "look at the page" twoRoundsWorld
    [⟨[.tool_use "toolu_1" "browser_navigate" (.obj .nil)], [.str "navigated"]⟩,
     ⟨[.text "Looking.", .tool_use "toolu_2" "browser_snapshot" (.obj .nil)],
       [.str "snapshot"]⟩]
    [.ok [.text "Finished"]] []
    (by
      intro r hr
      simp only [List.mem_cons, List.mem_singleton, List.not_mem_nil, or_false] at hr
      rcases hr with rfl | rfl <;> exact ⟨rfl, rfl⟩)
    rfl rfl

theorem whileContinue_raise (tools : List Tool) (pre post : List ContentBlock)
    (id name : String) (input : Json) (results : List Json) (e : JsError)
    (script : List (Except JsError (List ContentBlock))) (later : List (Except JsError Json))
    (messages : List Message) (finalText : List String) (w : World)
    (hlen : results.length = (toolUseIds pre).length)
    (hout : w.toolOutcomes = results.map Except.ok ++ .error e :: later) :
    whileContinue tools (.ok (pre ++ .tool_use id name input :: post) :: script) messages
        finalText w =
      ⟨.rejected e,
        messages ++ [⟨.assistant, .blocks (pre ++ .tool_use id name input :: post)⟩],
        finalText ++ pre.flatMap blockEntries ++ [callingLine name input],
        { w with responses := script
                 toolOutcomes := later
                 log := w.log ++ [createEvent tools messages] ++ toolCallsOf pre ++
                   [.callTool name input] }⟩ := by
  rw [whileContinue]
  simp only
  rw [forContent_raise pre post id name input results e later _ hlen
    (by simpa [World.emit] using hout)]
  simp [World.emit, createEvent]

/-- C6: after any number of successful rounds, (1) if the provider raises on a tool
invocation, `processQuery` fails with that error; the log ends with that invocation, so
no later Tool-Use Block is invoked and no further LLM call is made; the rest of the
model's script is untouched; and `messages` ends with the assistant message, the
Tool-Result Blocks collected in the round not being appended; (2) if an LLM call raises,
`processQuery` fails with that error and the log ends with that one call. -/
theorem processQuery_error_propagation (client : MCPClient) (query : String) (w : World)
    (rounds : List Round) (hrounds : ∀ r ∈ rounds, r.IsToolRound) :
    (∀ (pre post : List ContentBlock) (id name : String) (input : Json) (results : List Json)
        (e : JsError) (script : List (Except JsError (List ContentBlock)))
        (later : List (Except JsError Json)),
      results.length = (toolUseIds pre).length →
      w.responses = rounds.map (fun r => Except.ok r.content) ++
        .ok (pre ++ .tool_use id name input :: post) :: script →
      w.toolOutcomes = (rounds.flatMap (·.results)).map Except.ok ++
        (results.map Except.ok ++ .error e :: later) →
      (processQuery client query w).1 = .rejected e ∧
      (processQuery client query w).2.log =
        w.log ++ roundsLog client.tools [⟨.user, .query query⟩] rounds ++
          [createEvent client.tools ([⟨.user, .query query⟩] ++ rounds.flatMap roundMessages)] ++
          toolCallsOf pre ++ [.callTool name input] ∧
      (processQuery client query w).2.responses = script ∧
      (processQuery client query w).2.toolOutcomes = later ∧
      (runQuery client.tools query w).messages =
        [⟨.user, .query query⟩] ++ rounds.flatMap roundMessages ++
          [⟨.assistant, .blocks (pre ++ .tool_use id name input :: post)⟩]) ∧
    (∀ (e : JsError) (script : List (Except JsError (List ContentBlock)))
        (later : List (Except JsError Json)),
      w.responses = rounds.map (fun r => Except.ok r.content) ++ .error e :: script →
      w.toolOutcomes = (rounds.flatMap (·.results)).map Except.ok ++ later →
      (processQuery client query w).1 = .rejected e ∧
      (processQuery client query w).2.log =
        w.log ++ roundsLog client.tools [⟨.user, .query query⟩] rounds ++
          [createEvent client.tools ([⟨.user, .query query⟩] ++ rounds.flatMap roundMessages)] ∧
      (processQuery client query w).2.responses = script) := by
  constructor
  · intro pre post id name input results e script later hlen hresp hout
    rw [processQuery, runQuery_rounds client.tools query w rounds _ _ hrounds hresp hout,
      whileContinue_raise client.tools pre post id name input results e script later _ _ _
        hlen rfl]
    simp
  · intro e script later hresp hout
    rw [processQuery, runQuery_rounds client.tools query w rounds _ _ hrounds hresp hout,
      whileContinue]
    simp [World.emit, createEvent]

/-- C6, on a response whose second tool invocation raises, and on a failing LLM call. -/
theorem processQuery_error_propagation_witness :
    ((processQuery ⟨none, []⟩ "click it" failingToolWorld).1 = .rejected ⟨"element not found"⟩ ∧
      (processQuery ⟨none, []⟩ "click it" failingToolWorld).2.log =
        [createEvent [] [⟨.user, .query "click it"⟩],
         .callTool "browser_navigate" (.obj .nil), .callTool "browser_click" (.obj .nil)] ∧
      (processQuery ⟨none, []⟩ "click it" failingToolWorld).2.responses =
        [.ok [.text "never asked for"]] ∧
      (processQuery ⟨none, []⟩ "click it" failingToolWorld).2.toolOutcomes =
        [.ok (.str "snapshot")] ∧
      (runQuery [] "click it" failingToolWorld).messages =
        [⟨.user, .query "click it"⟩,
         ⟨.assistant, .blocks
           [.tool_use "toolu_a" "browser_navigate" (.obj .nil),
            .tool_use "toolu_b" "browser_click" (.obj .nil),
            .tool_use "toolu_c" "browser_snapshot" (.obj .nil)]⟩]) ∧
    ((processQuery ⟨none, []⟩ "hello" failingModelWorld).1 = .rejected ⟨"rate limited"⟩ ∧
      (processQuery ⟨none, []⟩ "hello" failingModelWorld).2.log =
        [createEvent [] [⟨.user, .query "hello"⟩]] ∧
      (processQuery ⟨none, []⟩ "hello" failingModelWorld).2.responses =
        [.ok [.text "never asked for"]]) :=
  ⟨(processQuery_error_propagation ⟨none, []⟩ "click it" failingToolWorld []
      (fun _ h => nomatch h)).1
      [.tool_use "toolu_a" "browser_navigate" (.obj .nil)]
      [.tool_use "toolu_c" "browser_snapshot" (.obj .nil)]
      "toolu_b" "browser_click" (.obj .nil) [.str "navigated"] ⟨"element not found"⟩
      [.ok [.text "never asked for"]] [.ok (.str "snapshot")] rfl rfl rfl,
   (processQuery_error_propagation ⟨none, []⟩ "hello" failingModelWorld []
      (fun _ h => nomatch h)).2
      ⟨"rate limited"⟩ [.ok [.text "never asked for"]] [] rfl rfl⟩

theorem forContent_log_upto (pre post : List ContentBlock) (id name : String) (input : Json)
    (results : List Json) (outcome : Except JsError Json) (later : List (Except JsError Json))
    (s : Scan) (hlen : results.length = (toolUseIds pre).length)
    (hout : s.world.toolOutcomes = results.map Except.ok ++ outcome :: later) :
    ∃ calls, (forContent (pre ++ .tool_use id name input :: post) s).2.world.log =
      s.world.log ++ toolCallsOf pre ++ [.callTool name input] ++ calls := by
  rw [forContent_append_ok pre _ results (outcome :: later) s hlen hout, forContent]
  cases outcome with
  | error e => exact ⟨[], by simp [World.emit]⟩
  | ok result =>
    simp only
    obtain ⟨_, _, _, _, calls, h, _⟩ := forContent_frame post
      { finalText := s.finalText ++ pre.flatMap blockEntries ++ [callingLine name input]
        hasToolCalls := true
        toolResults := s.toolResults ++ toolResultsOf pre results ++ [⟨id, result⟩]
        world :=
          { ({ s.world with toolOutcomes := Except.ok result :: later
                            log := s.world.log ++ toolCallsOf pre } : World).emit
              (.callTool name input) with toolOutcomes := later } }
    exact ⟨calls, by rw [h]; simp [World.emit]⟩

theorem whileContinue_log_forContent (tools : List Tool) (content : List ContentBlock)
    (script : List (Except JsError (List ContentBlock))) (messages : List Message)
    (finalText : List String) (w : World) :
    ∃ calls, (whileContinue tools (.ok content :: script) messages finalText w).world.log =
      (forContent content ⟨finalText, false, [],
        { w.emit (.messagesCreate ⟨"claude-3-5-sonnet-20241022", 1000, messages, tools⟩)
          with responses := script }⟩).2.world.log ++ calls := by
  rw [whileContinue]
  simp only
  generalize forContent content _ = res
  obtain ⟨o, s⟩ := res
  cases o with
  | pending => exact ⟨[], by simp⟩
  | rejected e => exact ⟨[], by simp⟩
  | resolved u =>
    simp only
    by_cases hc : s.hasToolCalls = true
    · simp only [hc, if_true]
      obtain ⟨_, _, _, calls, h, _⟩ := whileContinue_frame tools script
        (messages ++ [⟨.assistant, .blocks content⟩] ++ [⟨.user, .toolResults s.toolResults⟩])
        s.finalText s.world
      exact ⟨_, h⟩
    · simp only [hc]
      exact ⟨[], by simp⟩

/-- C7 as stated fails: with a catalog that holds only `screenshot`, a Tool-Use Block
naming `no_such_tool` is passed to the provider, and when the provider answers without
raising, `processQuery` returns an answer instead of aborting. -/
theorem unknown_tool_still_answered :
    (∀ t ∈ screenshotClient.tools, t.name ≠ "no_such_tool") ∧
    (processQuery screenshotClient "use it" unknownToolWorld).1 =
      .resolved "[Calling tool no_such_tool with args \x7b\x7d]\nDone" ∧
    (processQuery screenshotClient "use it" unknownToolWorld).2.log =
      [createEvent screenshotClient.tools [⟨.user, .query "use it"⟩],
       .callTool "no_such_tool" (.obj .nil),
       createEvent screenshotClient.tools
         [⟨.user, .query "use it"⟩,
          ⟨.assistant, .blocks [.tool_use "toolu_x" "no_such_tool" (.obj .nil)]⟩,
          ⟨.user, .toolResults [⟨"toolu_x", .str "Unknown tool: no_such_tool"⟩]⟩]] := by
  refine ⟨?_, rfl, rfl⟩
  intro t ht
  simp only [screenshotClient, List.mem_singleton] at ht
  subst ht
  decide

/-- C7, amended: for every catalog and every Tool-Use Block whose name matches no Tool
Descriptor of the catalog, the name is not looked up: the provider is invoked with that
name and input, and when the provider raises on that invocation `processQuery` aborts the
query with the provider's error instead of returning an answer. -/
theorem processQuery_unknown_tool (client : MCPClient) (query : String) (w : World)
    (rounds : List Round) (pre post : List ContentBlock) (id name : String) (input : Json)
    (results : List Json) (script : List (Except JsError (List ContentBlock)))
    (outcome : Except JsError Json) (later : List (Except JsError Json))
    (_hunknown : ∀ t ∈ client.tools, t.name ≠ name)
    (hrounds : ∀ r ∈ rounds, r.IsToolRound)
    (hlen : results.length = (toolUseIds pre).length)
    (hresp : w.responses = rounds.map (fun r => Except.ok r.content) ++
      .ok (pre ++ .tool_use id name input :: post) :: script)
    (hout : w.toolOutcomes = (rounds.flatMap (·.results)).map Except.ok ++
      (results.map Except.ok ++ outcome :: later)) :
    (∃ calls, (processQuery client query w).2.log =
      w.log ++ roundsLog client.tools [⟨.user, .query query⟩] rounds ++
        [createEvent client.tools ([⟨.user, .query query⟩] ++ rounds.flatMap roundMessages)] ++
        toolCallsOf pre ++ [.callTool name input] ++ calls) ∧
    ∀ e, outcome = .error e → (processQuery client query w).1 = .rejected e := by
  constructor
  · rw [processQuery, runQuery_rounds client.tools query w rounds _ _ hrounds hresp hout]
    obtain ⟨calls, h⟩ := whileContinue_log_forContent client.tools
      (pre ++ .tool_use id name input :: post) script
      ([⟨.user, .query query⟩] ++ rounds.flatMap roundMessages)
      (rounds.flatMap (fun r => r.content.flatMap blockEntries))
      { w with toolOutcomes := results.map Except.ok ++ outcome :: later
               log := w.log ++ roundsLog client.tools [⟨.user, .query query⟩] rounds }
    obtain ⟨calls', h'⟩ := forContent_log_upto pre post id name input results outcome later
      ⟨rounds.flatMap (fun r => r.content.flatMap blockEntries), false, [],
        { ({ w with toolOutcomes := results.map Except.ok ++ outcome :: later
                    log := w.log ++ roundsLog client.tools [⟨.user, .query query⟩] rounds } :
              World).emit
            (.messagesCreate ⟨"claude-3-5-sonnet-20241022", 1000,
              [⟨.user, .query query⟩] ++ rounds.flatMap roundMessages, client.tools⟩)
          with responses := script }⟩ hlen rfl
    refine ⟨calls' ++ calls, ?_⟩
    rw [h, h']
    simp [World.emit, createEvent]
  · intro e he
    subst he
    rw [processQuery, runQuery_rounds client.tools query w rounds _ _ hrounds hresp hout,
      whileContinue_raise client.tools pre post id name input results e script later _ _ _
        hlen rfl]

/-- C7, amended, on a Tool-Use Block naming `no_such_tool` on which the provider raises. -/
theorem processQuery_unknown_tool_witness :
    (∀ t ∈ screenshotClient.tools, t.name ≠ "no_such_tool") ∧
    (∃ calls, (processQuery screenshotClient "use it" rejectedToolWorld).2.log =
      [createEvent screenshotClient.tools [⟨.user, .query "use it"⟩],
       .callTool "no_such_tool" (.obj .nil)] ++ calls) ∧
    (processQuery screenshotClient "use it" rejectedToolWorld).1 = .rejected ⟨"Tool not found"⟩ :=
  have hunknown : ∀ t ∈ screenshotClient.tools, t.name ≠ "no_such_tool" := by
    intro t ht
    simp only [screenshotClient, List.mem_singleton] at ht
    subst ht
    decide
  have h := processQuery_unknown_tool screenshotClient "use it" rejectedToolWorld [] [] []
    "toolu_x" "no_such_tool" (.obj .nil) [] [.ok [.text "Done"]] (.error ⟨"Tool not found"⟩) []
    hunknown (fun _ h => nomatch h) rfl rfl rfl
  ⟨hunknown, h.1, h.2 ⟨"Tool not found"⟩ rfl⟩

/-! ## The session shell -/

theorem lowerChar_eq (c : Char) (lower upper : Char)
    (hlower : ¬ (65 ≤ lower.toNat ∧ lower.toNat ≤ 90))
    (hupper : 65 ≤ upper.toNat ∧ upper.toNat ≤ 90)
    (hpair : Char.ofNat (upper.toNat + 32) = lower)
    (hinj : ∀ n, 65 ≤ n → n ≤ 90 → Char.ofNat (n + 32) = lower → n = upper.toNat) :
    (if 65 ≤ c.toNat ∧ c.toNat ≤ 90 then Char.ofNat (c.toNat + 32) else c) = lower ↔
      (c = lower ∨ c = upper) := by
  constructor
  · intro h
    by_cases hc : 65 ≤ c.toNat ∧ c.toNat ≤ 90
    · rw [if_pos hc] at h
      right
      have := hinj c.toNat hc.1 hc.2 h
      rw [← Char.ofNat_toNat c, this, Char.ofNat_toNat]
    · rw [if_neg hc] at h
      exact Or.inl h
  · rintro (rfl | rfl)
    · rw [if_neg hlower]
    · rw [if_pos hupper, hpair]

theorem lowerChar_q (c : Char) :
    (if 65 ≤ c.toNat ∧ c.toNat ≤ 90 then Char.ofNat (c.toNat + 32) else c) = 'q' ↔
      (c = 'q' ∨ c = 'Q') :=
  lowerChar_eq c 'q' 'Q' (by decide) (by decide) (by decide) (by
    intro n h1 h2 h
    interval_cases n <;> first | rfl | (exfalso; revert h; decide))

theorem lowerChar_u (c : Char) :
    (if 65 ≤ c.toNat ∧ c.toNat ≤ 90 then Char.ofNat (c.toNat + 32) else c) = 'u' ↔
      (c = 'u' ∨ c = 'U') :=
  lowerChar_eq c 'u' 'U' (by decide) (by decide) (by decide) (by
    intro n h1 h2 h
    interval_cases n <;> first | rfl | (exfalso; revert h; decide))

theorem lowerChar_i (c : Char) :
    (if 65 ≤ c.toNat ∧ c.toNat ≤ 90 then Char.ofNat (c.toNat + 32) else c) = 'i' ↔
      (c = 'i' ∨ c = 'I') :=
  lowerChar_eq c 'i' 'I' (by decide) (by decide) (by decide) (by
    intro n h1 h2 h
    interval_cases n <;> first | rfl | (exfalso; revert h; decide))

theorem lowerChar_t (c : Char) :
    (if 65 ≤ c.toNat ∧ c.toNat ≤ 90 then Char.ofNat (c.toNat + 32) else c) = 't' ↔
      (c = 't' ∨ c = 'T') :=
  lowerChar_eq c 't' 'T' (by decide) (by decide) (by decide) (by
    intro n h1 h2 h
    interval_cases n <;> first | rfl | (exfalso; revert h; decide))

theorem toLowerCase_eq_quit (message : String) :
    toLowerCase message = "quit" ↔ IsQuitWord message := by
  have hq : ("quit" : String) = String.mk ['q', 'u', 'i', 't'] := rfl
  obtain ⟨l⟩ := message
  rw [toLowerCase, hq]
  constructor
  · intro h
    have h := congrArg String.data h
    simp only at h
    rcases l with _ | ⟨a, _ | ⟨b, _ | ⟨c, _ | ⟨d, _ | ⟨x, l⟩⟩⟩⟩⟩
    · simp at h
    · simp at h
    · simp at h
    · simp at h
    · simp only [List.map_cons, List.map_nil, List.cons.injEq, and_true] at h
      exact ⟨a, b, c, d, rfl, (lowerChar_q a).1 h.1, (lowerChar_u b).1 h.2.1,
        (lowerChar_i c).1 h.2.2.1, (lowerChar_t d).1 h.2.2.2⟩
    · simp at h
  · rintro ⟨a, b, c, d, h, ha, hb, hc, hd⟩
    have h := congrArg String.data h
    simp only at h
    subst h
    simp only [List.map_cons, List.map_nil]
    rw [(lowerChar_q a).2 ha, (lowerChar_u b).2 hb, (lowerChar_i c).2 hc, (lowerChar_t d).2 hd]

theorem processQuery_frame (client : MCPClient) (query : String) (w : World) :
    (processQuery client query w).2.stdin = w.stdin ∧
    (processQuery client query w).2.closing = w.closing ∧
    ∃ calls, (processQuery client query w).2.log =
        w.log ++ createEvent client.tools [⟨.user, .query query⟩] :: calls ∧
      ∀ e ∈ calls, isQueryEvent e = true := by
  obtain ⟨h1, h2, _, h4⟩ := runQuery_frame client.tools query w
  exact ⟨h1, h2, h4⟩

theorem isQueryEvent_not_close (e : Event) (h : isQueryEvent e = true) :
    isMcpClose e = false ∧ isCreateInterface e = false := by
  cases e <;> simp_all [isQueryEvent, isMcpClose, isCreateInterface]

theorem whileTrue_frame (client : MCPClient) (lines : List String) :
    ∀ w : World,
      (whileTrue client lines w).2.closing = w.closing ∧
      ∃ calls, (whileTrue client lines w).2.log = w.log ++ .question "\nQuery: " :: calls ∧
        ∀ e ∈ calls, isMcpClose e = false ∧ isCreateInterface e = false := by
  induction lines with
  | nil =>
    intro w
    exact ⟨rfl, [], rfl, by simp⟩
  | cons message later ih =>
    intro w
    rw [whileTrue]
    simp only
    by_cases hq : toLowerCase message = "quit"
    · rw [if_pos hq]
      exact ⟨rfl, [], rfl, by simp⟩
    · rw [if_neg hq]
      obtain ⟨_, h2, calls, h3, h4⟩ := processQuery_frame client message
        { w.emit (.question "\nQuery: ") with stdin := later }
      have h4' : ∀ e ∈ createEvent client.tools [⟨.user, .query message⟩] :: calls,
          isMcpClose e = false ∧ isCreateInterface e = false := by
        intro e he
        rcases List.mem_cons.1 he with rfl | he
        · exact ⟨rfl, rfl⟩
        · exact isQueryEvent_not_close e (h4 e he)
      generalize processQuery client message _ = res at h2 h3
      obtain ⟨o, w2⟩ := res
      simp only at h2 h3
      cases o with
      | pending => exact ⟨h2, _, by rw [h3]; simp [World.emit], h4'⟩
      | rejected e => exact ⟨h2, _, by rw [h3]; simp [World.emit], h4'⟩
      | resolved response =>
        simp only
        obtain ⟨g1, more, g2, g3⟩ := ih (w2.emit (.consoleLog [.str ("\n" ++ response)]))
        refine ⟨g1.trans h2, (createEvent client.tools [⟨.user, .query message⟩] :: calls) ++
          .consoleLog [.str ("\n" ++ response)] :: .question "\nQuery: " :: more, ?_, ?_⟩
        · rw [g2]
          simp [World.emit, h3]
        · intro e he
          rcases List.mem_append.1 he with he | he
          · exact h4' e he
          · rcases List.mem_cons.1 he with rfl | he
            · exact ⟨rfl, rfl⟩
            · rcases List.mem_cons.1 he with rfl | he
              · exact ⟨rfl, rfl⟩
              · exact g3 e he

theorem whileTrue_query (client : MCPClient) (message : String) (later : List String)
    (w : World) (hq : toLowerCase message ≠ "quit") :
    ∃ calls, (whileTrue client (message :: later) w).2.log =
      w.log ++ [.question "\nQuery: ", createEvent client.tools [⟨.user, .query message⟩]] ++
        calls := by
  rw [whileTrue]
  simp only
  rw [if_neg hq]
  obtain ⟨_, _, calls, h3, _⟩ := processQuery_frame client message
    { w.emit (.question "\nQuery: ") with stdin := later }
  generalize processQuery client message _ = res at h3
  obtain ⟨o, w2⟩ := res
  simp only at h3
  cases o with
  | pending => exact ⟨calls, by rw [h3]; simp [World.emit]⟩
  | rejected e => exact ⟨calls, by rw [h3]; simp [World.emit]⟩
  | resolved response =>
    simp only
    obtain ⟨_, more, g2, _⟩ := whileTrue_frame client later
      (w2.emit (.consoleLog [.str ("\n" ++ response)]))
    exact ⟨calls ++ .consoleLog [.str ("\n" ++ response)] :: .question "\nQuery: " :: more,
      by rw [g2]; simp [World.emit, h3]⟩

theorem chatLoop_frame (client : MCPClient) (w : World) :
    (chatLoop client w).2.closing = w.closing ∧
    ∃ calls, (chatLoop client w).2.log = w.log ++ .createInterface :: calls ∧
      ∀ e ∈ calls, isMcpClose e = false := by
  rw [chatLoop]
  obtain ⟨h1, calls, h2, h3⟩ := whileTrue_frame client
    (((w.emit .createInterface).emit (.consoleLog [.str "\nMCP Client Started!"])).emit
      (.consoleLog [.str "Type your queries or \x27quit\x27 to exit."])).stdin
    (((w.emit .createInterface).emit (.consoleLog [.str "\nMCP Client Started!"])).emit
      (.consoleLog [.str "Type your queries or \x27quit\x27 to exit."]))
  generalize whileTrue client _ _ = res at h1 h2
  obtain ⟨o, w2⟩ := res
  change w2.closing = _ at h1
  change w2.log = _ at h2
  have h3' : ∀ e ∈ calls, isMcpClose e = false := fun e he => (h3 e he).1
  cases o with
  | pending =>
    refine ⟨h1, [.consoleLog [.str "\nMCP Client Started!"],
      .consoleLog [.str "Type your queries or \x27quit\x27 to exit."],
      .question "\nQuery: "] ++ calls, by simp [World.emit, h2], ?_⟩
    intro e he
    simp only [List.mem_cons, List.cons_append, List.nil_append] at he
    rcases he with rfl | rfl | rfl | he
    · rfl
    · rfl
    · rfl
    · exact h3' e he
  | rejected err =>
    refine ⟨h1, [.consoleLog [.str "\nMCP Client Started!"],
      .consoleLog [.str "Type your queries or \x27quit\x27 to exit."],
      .question "\nQuery: "] ++ calls ++ [.rlClose], by simp [World.emit, h2], ?_⟩
    intro e he
    simp only [List.mem_append, List.mem_cons, List.mem_singleton, List.not_mem_nil,
      or_false] at he
    rcases he with (((rfl | rfl | rfl) | he) | rfl)
    · rfl
    · rfl
    · rfl
    · exact h3' e he
    · rfl
  | resolved u =>
    refine ⟨h1, [.consoleLog [.str "\nMCP Client Started!"],
      .consoleLog [.str "Type your queries or \x27quit\x27 to exit."],
      .question "\nQuery: "] ++ calls ++ [.rlClose], by simp [World.emit, h2], ?_⟩
    intro e he
    simp only [List.mem_append, List.mem_cons, List.mem_singleton, List.not_mem_nil,
      or_false] at he
    rcases he with (((rfl | rfl | rfl) | he) | rfl)
    · rfl
    · rfl
    · rfl
    · exact h3' e he
    · rfl

theorem main_resolved (w : World) (listed : List ProviderTool)
    (hl : w.listing = .resolved listed) :
    (main w).2.log.countP isMcpClose = w.log.countP isMcpClose + 1 ∨ (main w).1 = .pending := by
  rw [main, connectToServer]
  simp only [hl]
  obtain ⟨h1, calls, h2, h3⟩ := chatLoop_frame
    { transport := some ("npx", ["@playwright/mcp@latest"])
      tools := listed.map fun tool => ⟨tool.name, tool.description, tool.inputSchema⟩ }
    (((w.emit (.connect "npx" ["@playwright/mcp@latest"])).emit .listTools).emit
      (.consoleLog [.str "Connected to server with tools:",
        .names ((listed.map fun tool =>
          (⟨tool.name, tool.description, tool.inputSchema⟩ : Tool)).map (·.name))]))
  generalize chatLoop _ _ = res at h1 h2
  obtain ⟨o, w2⟩ := res
  change w2.closing = _ at h1
  change w2.log = _ at h2
  have hc : calls.countP isMcpClose = 0 := List.countP_eq_zero.2 (by
    intro e he; simp [h3 e he])
  have hw2 : w2.log.countP isMcpClose = w.log.countP isMcpClose := by
    rw [h2]
    simp [World.emit, List.countP_cons, List.countP_append, isMcpClose, hc]
  cases o with
  | pending => exact Or.inr rfl
  | rejected err =>
    simp only [cleanup]
    cases hcl : w2.closing with
    | pending => exact Or.inr rfl
    | rejected err' =>
      left
      simp [World.emit, List.countP_cons, List.countP_append, isMcpClose, hw2]
    | resolved u =>
      left
      simp [World.emit, List.countP_cons, List.countP_append, isMcpClose, hw2]
  | resolved u =>
    simp only [cleanup]
    cases hcl : w2.closing with
    | pending => exact Or.inr rfl
    | rejected err' =>
      left
      simp [World.emit, List.countP_cons, List.countP_append, isMcpClose, hw2]
    | resolved u =>
      left
      simp [World.emit, List.countP_cons, List.countP_append, isMcpClose, hw2]

theorem main_rejected (w : World) (e : JsError) (hl : w.listing = .rejected e) :
    ∃ ending, (main w).2.log = w.log ++
      [.connect "npx" ["@playwright/mcp@latest"], .listTools,
       .consoleLog [.str "Failed to connect to Playwright MCP server: ", .error e],
       .mcpClose] ++ ending ∧ (ending = [] ∨ ending = [.exit 0]) := by
  rw [main, connectToServer]
  simp only [hl, cleanup]
  cases hcl : w.closing with
  | pending => exact ⟨[], by simp [World.emit, hcl], Or.inl rfl⟩
  | rejected err' => exact ⟨[], by simp [World.emit, hcl], Or.inl rfl⟩
  | resolved u => exact ⟨[.exit 0], by simp [World.emit, hcl], Or.inr rfl⟩

/-! ## The claims about `chatLoop` and `main` -/

/-- C8 as stated fails: when the LLM call of the first query raises, `chatLoop` fails
with that error after closing the interface; nothing is printed, the two lines left are
never prompted for, and `main` releases the connection and exits. -/
theorem chatLoop_stops_on_query_error :
    (chatLoop ⟨none, []⟩ failingSessionWorld).1 = .rejected ⟨"rate limited"⟩ ∧
    (chatLoop ⟨none, []⟩ failingSessionWorld).2.stdin = ["what is 2+2", "quit"] ∧
    (chatLoop ⟨none, []⟩ failingSessionWorld).2.log =
      greeting ++ [createEvent [] [⟨.user, .query "hello"⟩], .rlClose] ∧
    (main failingSessionWorld).1 = .exited 0 ∧
    (main failingSessionWorld).2.stdin = ["what is 2+2", "quit"] ∧
    (main failingSessionWorld).2.responses = [.ok [.text "4"]] :=
  ⟨rfl, rfl, rfl, rfl, rfl, rfl⟩

/-- C8, amended: when `processQuery` fails for a query, the loop of `chatLoop` is left
with that error at once, at any iteration: the error is not reported and no further line
is prompted for; `chatLoop` closes the interface and fails with the same error, leaving
the lines that follow unread. -/
theorem chatLoop_query_error (client : MCPClient) (message : String) (later : List String)
    (e : JsError) (hquit : ¬ IsQuitWord message) :
    (∀ w : World,
      (processQuery client message
        { w.emit (.question "\nQuery: ") with stdin := later }).1 = .rejected e →
      whileTrue client (message :: later) w =
        (.rejected e, (processQuery client message
          { w.emit (.question "\nQuery: ") with stdin := later }).2)) ∧
    (∀ w : World, w.stdin = message :: later →
      (processQuery client message (promptedWorld w later)).1 = .rejected e →
      (chatLoop client w).1 = .rejected e ∧
      (chatLoop client w).2.log =
        (processQuery client message (promptedWorld w later)).2.log ++ [.rlClose] ∧
      (chatLoop client w).2.stdin = later) := by
  have hq : toLowerCase message ≠ "quit" := fun h => hquit ((toLowerCase_eq_quit message).1 h)
  have hloop : ∀ w : World,
      (processQuery client message
        { w.emit (.question "\nQuery: ") with stdin := later }).1 = .rejected e →
      whileTrue client (message :: later) w =
        (.rejected e, (processQuery client message
          { w.emit (.question "\nQuery: ") with stdin := later }).2) := by
    intro w hfail
    rw [whileTrue]
    simp only
    rw [if_neg hq]
    generalize processQuery client message _ = res at hfail
    obtain ⟨o, w2⟩ := res
    change o = _ at hfail
    subst hfail
    rfl
  refine ⟨hloop, ?_⟩
  intro w hstdin hfail
  have hstd := (processQuery_frame client message (promptedWorld w later)).1
  have hrun := hloop
    (((w.emit .createInterface).emit (.consoleLog [.str "\nMCP Client Started!"])).emit
      (.consoleLog [.str "Type your queries or \x27quit\x27 to exit."])) hfail
  have hs : (((w.emit .createInterface).emit (.consoleLog [.str "\nMCP Client Started!"])).emit
      (.consoleLog [.str "Type your queries or \x27quit\x27 to exit."])).stdin =
      message :: later := hstdin
  rw [chatLoop]
  rw [hs, hrun]
  exact ⟨rfl, rfl, hstd⟩

/-- C8, amended, on a session whose first query meets a failing LLM call. -/
theorem chatLoop_query_error_witness :
    ¬ IsQuitWord "hello" ∧
    (chatLoop ⟨none, []⟩ failingSessionWorld).1 = .rejected ⟨"rate limited"⟩ ∧
    (chatLoop ⟨none, []⟩ failingSessionWorld).2.log =
      (processQuery ⟨none, []⟩ "hello"
        (promptedWorld failingSessionWorld ["what is 2+2", "quit"])).2.log ++ [.rlClose] ∧
    (chatLoop ⟨none, []⟩ failingSessionWorld).2.stdin = ["what is 2+2", "quit"] :=
  have hquit : ¬ IsQuitWord "hello" := fun h =>
    absurd ((toLowerCase_eq_quit "hello").2 h) (by decide)
  ⟨hquit, (chatLoop_query_error ⟨none, []⟩ "hello" ["what is 2+2", "quit"] ⟨"rate limited"⟩
    hquit).2 failingSessionWorld rfl rfl⟩

/-- C9: whenever `main` ends, by `process.exit` or by an error, cleanup has been invoked
exactly once: the log gains exactly one `mcp.close` call; and when `connectToServer`
fails, `chatLoop` is never entered: the log gains the connection attempt, the report of
the failure and the `mcp.close` call, followed at most by the exit. -/
theorem main_cleanup_once (w : World) :
    ((main w).1 ≠ .pending →
      (main w).2.log.countP isMcpClose = w.log.countP isMcpClose + 1) ∧
    (∀ e, w.listing = .rejected e →
      (main w).2.log.countP isCreateInterface = w.log.countP isCreateInterface ∧
      ∃ ending, (main w).2.log = w.log ++
        [.connect "npx" ["@playwright/mcp@latest"], .listTools,
         .consoleLog [.str "Failed to connect to Playwright MCP server: ", .error e],
         .mcpClose] ++ ending ∧ (ending = [] ∨ ending = [.exit 0])) := by
  constructor
  · intro hexit
    cases hl : w.listing with
    | resolved listed =>
      rcases main_resolved w listed hl with h | h
      · exact h
      · exact absurd h hexit
    | rejected e =>
      obtain ⟨ending, h, hend⟩ := main_rejected w e hl
      rw [h]
      rcases hend with rfl | rfl <;>
        simp [List.countP_cons, List.countP_append, isMcpClose]
    | pending =>
      exfalso
      apply hexit
      rw [main, connectToServer]
      simp only [hl]
  · intro e hl
    obtain ⟨ending, h, hend⟩ := main_rejected w e hl
    refine ⟨?_, ending, h, hend⟩
    rw [h]
    rcases hend with rfl | rfl <;>
      simp [List.countP_cons, List.countP_append, isCreateInterface]

/-- C9, on the three exit paths: the provider cannot be reached, the user quits, and a
query fails. -/
theorem main_cleanup_once_witness :
    ((main unreachableWorld).1 = .exited 0 ∧
      (main unreachableWorld).2.log.countP isMcpClose = 1 ∧
      (main unreachableWorld).2.log.countP isCreateInterface = 0) ∧
    ((main quitWorld).1 = .exited 0 ∧ (main quitWorld).2.log.countP isMcpClose = 1) ∧
    ((main failingSessionWorld).1 = .exited 0 ∧
      (main failingSessionWorld).2.log.countP isMcpClose = 1) :=
  ⟨⟨rfl, (main_cleanup_once unreachableWorld).1 (fun h => nomatch h),
      ((main_cleanup_once unreachableWorld).2 ⟨"Connection closed"⟩ rfl).1⟩,
   ⟨rfl, (main_cleanup_once quitWorld).1 (fun h => nomatch h)⟩,
   ⟨rfl, (main_cleanup_once failingSessionWorld).1 (fun h => nomatch h)⟩⟩

/-- C10: at any iteration, an input line that is exactly "quit" in any letter case ends
the loop with no call of `processQuery` or of the model for that line, and `chatLoop`
then only closes the interface; for every other line, "quit" between blanks included,
`processQuery` is called with that line: the next call after the prompt is the LLM call
whose history is the single user message holding the line. -/
theorem chatLoop_quit_word (client : MCPClient) (message : String) (later : List String) :
    (IsQuitWord message →
      (∀ w : World, whileTrue client (message :: later) w =
        (.resolved (), { w.emit (.question "\nQuery: ") with stdin := later })) ∧
      (∀ w : World, w.stdin = message :: later →
        chatLoop client w =
          (.resolved (), { w with stdin := later, log := w.log ++ greeting ++ [.rlClose] }))) ∧
    (¬ IsQuitWord message →
      (∀ w : World, ∃ calls, (whileTrue client (message :: later) w).2.log =
        w.log ++ [.question "\nQuery: ", createEvent client.tools [⟨.user, .query message⟩]] ++
          calls) ∧
      (∀ w : World, w.stdin = message :: later →
        ∃ calls, (chatLoop client w).2.log =
          w.log ++ greeting ++ [createEvent client.tools [⟨.user, .query message⟩]] ++
            calls)) := by
  constructor
  · intro hquit
    have hq : toLowerCase message = "quit" := (toLowerCase_eq_quit message).2 hquit
    have hloop : ∀ w : World, whileTrue client (message :: later) w =
        (.resolved (), { w.emit (.question "\nQuery: ") with stdin := later }) := by
      intro w
      rw [whileTrue]
      simp only
      rw [if_pos hq]
    refine ⟨hloop, ?_⟩
    intro w hstdin
    have hs : (((w.emit .createInterface).emit (.consoleLog [.str "\nMCP Client Started!"])).emit
        (.consoleLog [.str "Type your queries or \x27quit\x27 to exit."])).stdin =
        message :: later := hstdin
    rw [chatLoop, hs, hloop]
    simp [World.emit, greeting]
  · intro hquit
    have hq : toLowerCase message ≠ "quit" := fun h => hquit ((toLowerCase_eq_quit message).1 h)
    refine ⟨fun w => whileTrue_query client message later w hq, ?_⟩
    intro w hstdin
    have hs : (((w.emit .createInterface).emit (.consoleLog [.str "\nMCP Client Started!"])).emit
        (.consoleLog [.str "Type your queries or \x27quit\x27 to exit."])).stdin =
        message :: later := hstdin
    obtain ⟨calls, h⟩ := whileTrue_query client message later
      (((w.emit .createInterface).emit (.consoleLog [.str "\nMCP Client Started!"])).emit
        (.consoleLog [.str "Type your queries or \x27quit\x27 to exit."])) hq
    rw [chatLoop, hs]
    generalize whileTrue client _ _ = res at h
    obtain ⟨o, w2⟩ := res
    change w2.log = _ at h
    cases o with
    | pending => exact ⟨calls, by simp [h, World.emit, greeting]⟩
    | rejected e => exact ⟨calls ++ [.rlClose], by simp [h, World.emit, greeting]⟩
    | resolved u => exact ⟨calls ++ [.rlClose], by simp [h, World.emit, greeting]⟩

/-- C10, on the line "QUIT" and on the line " quit ". -/
theorem chatLoop_quit_word_witness :
    (IsQuitWord "QUIT" ∧
      chatLoop screenshotClient quitWorld =
        (.resolved (), { quitWorld with stdin := ["hello"], log := greeting ++ [.rlClose] })) ∧
    (¬ IsQuitWord " quit " ∧
      ∃ calls, (chatLoop ⟨none, []⟩ paddedQuitWorld).2.log =
        greeting ++ [createEvent [] [⟨.user, .query " quit "⟩]] ++ calls) :=
  have hquit : IsQuitWord "QUIT" :=
    ⟨'Q', 'U', 'I', 'T', rfl, Or.inr rfl, Or.inr rfl, Or.inr rfl, Or.inr rfl⟩
  have hpadded : ¬ IsQuitWord " quit " := fun h =>
    absurd ((toLowerCase_eq_quit " quit ").2 h) (by decide)
  ⟨⟨hquit, ((chatLoop_quit_word screenshotClient "QUIT" ["hello"]).1 hquit).2 quitWorld rfl⟩,
   ⟨hpadded, ((chatLoop_quit_word ⟨none, []⟩ " quit " ["quit"]).2 hpadded).2 paddedQuitWorld rfl⟩⟩

end McpClient
